import Mathlib

/-!
Shallow embedding of `adviser/services/policy/course_picker.py`
(`TellerCoursePicker`) together with theorems settling the frozen claims
about the course-selection solver.

Modelling conventions:
* Python `int` is `Int`; clock/offset arithmetic is exact.
* Python string helpers (`split`, `strip`, `lower`, `int(...)`, `in`) are
  re-implemented structurally over `List Char` so that every definition is
  kernel-computable; their semantics match Python on the inputs the solver
  handles (all separators in the source are single characters).
* Python exceptions raised while parsing a `Dates` string are modelled by
  `Except Unit`: any `ValueError`/`KeyError` becomes `.error ()`.
* Python dicts written in program order are modelled as association lists
  in write order; a lookup takes the last write (`dictGet`), exactly like
  assignment-then-subscript on a dict.
* The in-place `random.shuffle` calls are modelled by explicit oracle
  parameters (`Nat → List Course → List Course`); theorems quantifying
  over "every outcome of the random shuffles" add the hypothesis that each
  oracle output is a permutation of its input.
-/

set_option maxHeartbeats 1000000
set_option synthInstance.maxSize 1000
set_option maxRecDepth 4000

namespace CoursePicker

/-- Python `str.split(c)` for a one-character separator, on char lists. -/
def splitCh (c : Char) : List Char → List (List Char)
  | [] => [[]]
  | x :: xs =>
    if x = c then [] :: splitCh c xs
    else
      match splitCh c xs with
      | [] => [[x]]
      | h :: t => (x :: h) :: t

/-- Python `str.strip()`: drop whitespace from both ends. -/
def stripChars (l : List Char) : List Char :=
  ((l.dropWhile Char.isWhitespace).reverse.dropWhile Char.isWhitespace).reverse

/-- String versions of the helpers, acting through `String.data`. -/
def splitStr (c : Char) (s : String) : List String :=
  (splitCh c s.data).map String.mk

def strip (s : String) : String :=
  String.mk (stripChars s.data)

/-- Python `str.lower()` (ASCII case mapping). -/
def lower (s : String) : String :=
  String.mk (s.data.map Char.toLower)

/-- Python `int(s)` on the digit-only numerals the parser can actually
receive (the `-` sign can never reach `int` because the duration string was
already split at `'-'`). -/
def toIntDigits (s : String) : Option Int :=
  let l := s.data
  if l ≠ [] ∧ l.all Char.isDigit then
    some ((l.foldl (fun n c => n * 10 + (c.toNat - 48)) 0 : Nat) : Int)
  else none

/-- Python `needle in hay` (contiguous substring test). -/
def strContains (hay needle : String) : Bool :=
  decide (needle.data <:+: hay.data)

/-- Python `';'.join(l)`. -/
def joinSemi (l : List String) : String :=
  String.mk (List.intercalate [';'] (l.map (·.data)))

instance {ε α : Type _} [DecidableEq ε] [DecidableEq α] : DecidableEq (Except ε α) := fun a b =>
  match a, b with
  | .error e, .error f =>
    if h : e = f then isTrue (h ▸ rfl)
    else isFalse (by intro hc; cases hc; exact h rfl)
  | .ok x, .ok y =>
    if h : x = y then isTrue (h ▸ rfl)
    else isFalse (by intro hc; cases hc; exact h rfl)
  | .error _, .ok _ => isFalse (fun hc => Except.noConfusion hc)
  | .ok _, .error _ => isFalse (fun hc => Except.noConfusion hc)

/-- A course after `select_courses` has normalised it: `dates` holds the
`(start, end)` intervals produced by `_change_time_format`, `credit` the
`int(...)`-coerced credit. -/
structure Course where
  name : String
  credit : Int
  field : String
  format : String
  dates : List (Int × Int)
deriving DecidableEq

/-- A raw course record as handed to `select_courses` (its `Dates` entry is
still the unparsed string). -/
structure RawCourse where
  name : String
  credit : Int
  field : String
  format : String
  dates : String
deriving DecidableEq

/-- One entry of `self.time_slots[name]`: `(day, duration, start, end)`. -/
abbrev DispEntry := String × String × Int × Int

/-- `_build_day2min_mapper`: maps each day token to its offset, advancing the
offset by `one_day = 24*3600` per day (seconds, even though the rest of the
parser produces minutes). -/
def day2min : List (String × Int) :=
  (["mon", "tue", "wed", "thur", "fri", "sat", "sun"].foldl
    (fun acc day => (acc.1 ++ [(day, acc.2)], acc.2 + 24 * 3600))
    (([] : List (String × Int)), (0 : Int))).1

/-- Lookup in the `day2min` dict; `none` models the `KeyError` raised on an
unknown day token. -/
def dayOffset (d : String) : Option Int :=
  (day2min.find? (fun e => e.1 == d)).map (·.2)

/-- `_clock2min`: map `hh:mm` to `hh*60 + mm`; `none` models the `ValueError`
raised by tuple unpacking of `split(':')` or by `int(...)`. -/
def clock2min (clock : String) : Option Int :=
  match splitStr ':' (strip clock) with
  | [hh, mm] =>
    match toIntDigits (strip hh), toIntDigits (strip mm) with
    | some h, some m => some (h * 60 + m)
    | _, _ => none
  | _ => none

/-- The per-entry body of the loop in `_change_time_format`: normalise the
entry, split day from duration at `'.'`, look the day up in `day2min`,
split the duration at `'-'` and convert both clock fields, then add the day
offset to both endpoints.  Returns the interval together with the
`time_slots` record appended for this entry. -/
def parseEntry (date : String) : Except Unit ((Int × Int) × DispEntry) :=
  let d := lower (strip date)
  match splitStr '.' d with
  | [dayRaw, durRaw] =>
    let day := strip dayRaw
    let duration := strip durRaw
    match dayOffset day with
    | none => .error ()
    | some off =>
      match splitStr '-' duration with
      | [st, en] =>
        match clock2min st, clock2min en with
        | some s, some e => .ok ((s + off, e + off), (day, duration, s + off, e + off))
        | _, _ => .error ()
      | _ => .error ()
  | _ => .error ()

/-- `_change_time_format`: split the `Dates` string at `';'` and parse every
entry; any failing entry aborts the whole call (the Python exception). -/
def changeTimeFormat (dates : String) : Except Unit (List (Int × Int) × List DispEntry) := do
  let parsed ← (splitStr ';' dates).mapM parseEntry
  pure (parsed.map (·.1), parsed.map (·.2))

/-- `_has_overlap`: two interval lists conflict iff some pair has
`max(0, min(a.end, b.end) - max(a.start, b.start)) > 0`. -/
def hasOverlap (timesA timesB : List (Int × Int)) : Bool :=
  timesA.any (fun a => timesB.any (fun b =>
    max 0 (min a.2 b.2 - max a.1 b.1) > 0))

/-- One outer-loop row of `_build_time_conflict_relation_graph`: the dict
assignments `has_conflicts[i+"+"+j] = _has_overlap(...)` made while
`course_i` is fixed and `course_j` ranges over the candidates (the
same-name pair is skipped). -/
def rowEntries (cands : List Course) (ci : Course) : List (String × Bool) :=
  cands.filterMap (fun cj =>
    if ci.name = cj.name then none
    else some (ci.name ++ "+" ++ cj.name, hasOverlap ci.dates cj.dates))

/-- `_build_time_conflict_relation_graph`: all dict assignments in program
order (outer loop over `course_i`, inner loop over `course_j`). -/
def buildGraphEntries (cands : List Course) : List (String × Bool) :=
  (cands.map (rowEntries cands)).flatten

/-- Subscripting the conflict dict: the value of the last assignment with
the given key, `none` when the key was never assigned. -/
def dictGet (d : List (String × Bool)) (k : String) : Option Bool :=
  (d.reverse.find? (fun e => e.1 == k)).map (·.2)

/-- `_has_time_conflicts_for_random`: scan the candidates strictly before
`course_id` in the shuffled order (the loop breaks at `pid == course_id`),
skipping same-name entries, and report a conflict on the first graph edge
that is `True`.  (In every reachable call both names are in the graph, so
the missing-key `KeyError` Python would raise cannot fire; a missing key is
modelled as no conflict.) -/
def hasTimeConflictsForRandom (g : List (String × Bool)) (cands : List Course)
    (cid : Nat) : Bool :=
  match cands[cid]? with
  | none => false
  | some cur =>
    (cands.take cid).any (fun pre =>
      pre.name != cur.name && (dictGet g (pre.name ++ "+" ++ cur.name)).getD false)

/-- The loop body of `_has_time_conflicts`: walk the stack in insertion
order; skip same-name entries; on a key that is absent from the graph the
whole check aborts with `False` (the code's defensive `return False`). -/
def hasTimeConflictsAux (g : List (String × Bool)) (cands : List Course)
    (cur : Course) : List Nat → Bool
  | [] => false
  | pre :: rest =>
    match cands[pre]? with
    | none => false
    | some preC =>
      if preC.name = cur.name then hasTimeConflictsAux g cands cur rest
      else
        match dictGet g (preC.name ++ "+" ++ cur.name) with
        | none => false
        | some b => if b then true else hasTimeConflictsAux g cands cur rest

/-- `_has_time_conflicts`: check the course at `cid` against every index on
the backtracking stack. -/
def hasTimeConflicts (g : List (String × Bool)) (cands : List Course)
    (stack : List Nat) (cid : Nat) : Bool :=
  match cands[cid]? with
  | none => false
  | some cur => hasTimeConflictsAux g cands cur stack

/-- The inner `for couse_id, course in enumerate(candidates)` loop of
`_random_greedy_select`, walking the remaining courses while carrying the
enumeration index: skip a course on a time conflict with any earlier
candidate, stop the trial on the first unaffordable course, otherwise
accept it. -/
def greedyLoopAux (g : List (String × Bool)) (shuffled : List Course) (target : Int) :
    List Course → Nat → Int → List Course → Int × List Course
  | [], _, total, sols => (total, sols)
  | course :: rest, i, total, sols =>
    if hasTimeConflictsForRandom g shuffled i then
      greedyLoopAux g shuffled target rest (i + 1) total sols
    else if total + course.credit > target then (total, sols)
    else greedyLoopAux g shuffled target rest (i + 1) (total + course.credit) (sols ++ [course])

/-- One greedy trial over an already-shuffled candidate list. -/
def greedyLoop (g : List (String × Bool)) (shuffled : List Course) (target : Int) :
    Int × List Course :=
  greedyLoopAux g shuffled target shuffled 0 0 []

/-- The `for i in range(10)` loop of `_random_greedy_select`: each round
shuffles the current list in place (oracle `sh`), runs one greedy trial and
keeps the trial with the strictly highest credit total. -/
def randomGreedyTrials (g : List (String × Bool)) (sh : Nat → List Course → List Course)
    (target : Int) : List Nat → List Course → Int × List Course → Int × List Course
  | [], _, best => best
  | i :: rest, cur, best =>
    let shuffled := sh i cur
    let trial := greedyLoop g shuffled target
    randomGreedyTrials g sh target rest shuffled
      (if trial.1 > best.1 then trial else best)

/-- `_random_greedy_select`: ten shuffled greedy trials; the winning trial's
credit total and course-name set. -/
def randomGreedySelect (g : List (String × Bool)) (sh : Nat → List Course → List Course)
    (cands : List Course) (target : Int) : Int × List String :=
  let best := randomGreedyTrials g sh target (List.range 10) cands (0, [])
  (best.1, best.2.map (·.name))

/-- `_search_for_preference`: with no preferred names the stage is skipped,
otherwise the candidates are restricted to the preferred names and handed
to the randomized greedy selector. -/
def searchForPreference (g : List (String × Bool)) (sh : Nat → List Course → List Course)
    (names : List String) (cands : List Course) (target : Int) : Int × List String :=
  if names.isEmpty then (0, [])
  else randomGreedySelect g sh (cands.filter (fun c => decide (c.name ∈ names))) target

/-- `_filter_courses`: names of the candidates whose slot value contains
(case-insensitively) at least one constraint term; with no constraint terms
the empty set. -/
def filterCourses (cands : List Course) (slot : Course → String)
    (constraints : List String) : List String :=
  if constraints.isEmpty then []
  else
    cands.filterMap (fun c =>
      if constraints.any (fun t => strContains (lower (slot c)) (lower t)) then
        some c.name
      else none)

/-- Python `int(0.5 * t)`: the float product is exact, `int` truncates
toward zero. -/
def halfTrunc (t : Int) : Int :=
  t.sign * ((t.natAbs / 2 : Nat) : Int)

/-- `_brute_force_meet_total_credits`, walking the candidates from `curId`
on (the list argument is the remaining suffix `cands.drop curId`, which
makes the double recursion structural): push the current index, fail when
past the end or in conflict with the stack, succeed when choosing the
current course meets the target exactly, otherwise try choosing it (and on
success append its name while unwinding) and then try skipping it.  The
returned triple is `(status, final stack, final solution list)`. -/
def bruteForceAux (g : List (String × Bool)) (cands : List Course)
    (totalCredits : Int) :
    List Course → Int → Nat → List Nat → List String → Bool × List Nat × List String
  | [], _, curId, stack, sol => (false, (stack ++ [curId]).dropLast, sol)
  | cur :: rest, curCredits, curId, stack, sol =>
    let stack1 := stack ++ [curId]
    if hasTimeConflicts g cands stack1 curId then (false, stack1.dropLast, sol)
    else if curCredits + cur.credit = totalCredits then
      (true, stack1.dropLast, sol ++ [cur.name])
    else
      match bruteForceAux g cands totalCredits rest (curCredits + cur.credit)
          (curId + 1) stack1 sol with
      | (true, stack2, sol2) => (true, stack2.dropLast, sol2 ++ [cur.name])
      | (false, stack2, sol2) =>
        bruteForceAux g cands totalCredits rest curCredits (curId + 1)
          stack2.dropLast sol2

/-- The entry call `self._brute_force_meet_total_credits(0, 0, remain)`. -/
def bruteForce (g : List (String × Bool)) (cands : List Course)
    (curCredits : Int) (curId : Nat) (totalCredits : Int)
    (stack : List Nat) (sol : List String) : Bool × List Nat × List String :=
  bruteForceAux g cands totalCredits (cands.drop curId) curCredits curId stack sol

/-- `_select_one_solution`: stage 1 greedily covers about half the target
from the courses matching both preferences, stage 2 covers the rest from
the courses matching at least one preference, stage 3 closes the remaining
gap exactly by brute force over the courses not chosen so far.  Returns the
solution (a list of course names, empty on failure) together with the value
left in `self.candidates` (the stage-3 path reassigns it to the reduced
pool). -/
def selectOneSolution (g : List (String × Bool))
    (shA shB : Nat → List Course → List Course) (totalCredits : Int)
    (cands : List Course) (fieldC formatC : List String) :
    List String × List Course :=
  let interSet := fieldC.filter (fun n => decide (n ∈ formatC))
  let inter := searchForPreference g shA interSet cands
    (max 3 (halfTrunc totalCredits))
  let unionSet := (fieldC ++ formatC.filter (fun n => decide (n ∉ fieldC))).filter
    (fun n => decide (n ∉ inter.2))
  let union := searchForPreference g shB unionSet cands
    (max 0 (totalCredits - inter.1))
  let remain := totalCredits - inter.1 - union.1
  if remain = 0 then (inter.2 ++ union.2, cands)
  else
    let newCands := cands.filter
      (fun c => decide (¬ (c.name ∈ inter.2 ∨ c.name ∈ union.2)))
    let bf := bruteForce g newCands 0 0 remain [] []
    if bf.1 then (inter.2 ++ union.2 ++ bf.2.2, newCands) else ([], newCands)

/-- The `for _ in range(3)` trial loop of `select_courses`: shuffle the
current pool, run one pass, keep non-empty solutions; the pool produced by
the pass (possibly reduced by stage 3) feeds the next trial. -/
def runTrials (g : List (String × Bool)) (shOut : Nat → List Course → List Course)
    (shA shB : Nat → Nat → List Course → List Course) (totalCredits : Int)
    (fieldC formatC : List String) :
    List Nat → List Course → List (List String) → List Course × List (List String)
  | [], pool, acc => (pool, acc)
  | t :: ts, pool, acc =>
    let pool1 := shOut t pool
    let pass := selectOneSolution g (shA t) (shB t) totalCredits pool1 fieldC formatC
    runTrials g shOut shA shB totalCredits fieldC formatC ts pass.2
      (if pass.1.isEmpty then acc else acc ++ [pass.1])

/-- Normalisation of one raw candidate inside `select_courses`: parse its
`Dates` string; the course keeps its name, credit, field and format. -/
def parseCandidate (rc : RawCourse) : Except Unit (Course × List DispEntry) := do
  let parsed ← changeTimeFormat rc.dates
  pure (⟨rc.name, rc.credit, rc.field, rc.format, parsed.1⟩, parsed.2)

/-- The normalisation loop over all raw candidates. -/
def parseAll (raw : List RawCourse) : Except Unit (List (Course × List DispEntry)) :=
  raw.mapM parseCandidate

/-- `self.time_slots[n]`: the display entries appended while parsing every
candidate named `n`, plus the entries of the pseudo-candidate `"User"` when
a busy schedule was parsed. -/
def timeSlotsOf (pp : List (Course × List DispEntry)) (userDisp : List DispEntry)
    (n : String) : List DispEntry :=
  ((pp.filter (fun p => p.1.name == n)).map (·.2)).flatten ++
    (if n == "User" then userDisp else [])

/-- `self.name2credit[n]`: the credit stored for `n`; later assignments win,
so the last raw candidate with that name decides. -/
def name2creditOf (raw : List RawCourse) (n : String) : Int :=
  ((raw.reverse.find? (fun rc => rc.name == n)).map (·.credit)).getD 0

/-- The body of `select_courses` after all `Dates` strings parsed without
an exception: drop candidates conflicting with the user's schedule, build
the conflict graph and the preference name-sets, run three trials, drop
empty and duplicate solutions, and attach display time and credit to every
chosen name. -/
def selectAfterParse (shOut : Nat → List Course → List Course)
    (shA shB : Nat → Nat → List Course → List Course) (totalCredits : Int)
    (fields formats : List String) (raw : List RawCourse)
    (pp : List (Course × List DispEntry))
    (user : List (Int × Int) × List DispEntry) :
    List (List (String × List DispEntry × Int)) :=
  let cands1 := (pp.map (·.1)).filter (fun c => ! hasOverlap c.dates user.1)
  let g := buildGraphEntries cands1
  let fieldC := filterCourses cands1 (·.field) fields
  let formatC := filterCourses cands1 (·.format) formats
  let sols := (runTrials g shOut shA shB totalCredits fieldC formatC [0, 1, 2] cands1 []).2
  if sols.isEmpty then []
  else
    let uniq := sols.dedup
    if uniq.length = 1 ∧ uniq.head? = some [] then []
    else
      uniq.map (fun ns => ns.map (fun n =>
        (n, timeSlotsOf pp user.2 n, name2creditOf raw n)))

/-- `select_courses`: normalise the candidates and parse the user's busy
schedule (any exception propagates), then run the solver body. -/
def selectCourses (shOut : Nat → List Course → List Course)
    (shA shB : Nat → Nat → List Course → List Course) (totalCredits : Int)
    (fields formats : List String) (userSchedules : List String)
    (raw : List RawCourse) :
    Except Unit (List (List (String × List DispEntry × Int))) := do
  let pp ← parseAll raw
  let user ← if userSchedules.isEmpty then
      pure (([] : List (Int × Int)), ([] : List DispEntry))
    else changeTimeFormat (joinSemi userSchedules)
  pure (selectAfterParse shOut shA shB totalCredits fields formats raw pp user)

/-- A malformed `Dates` entry in the sense of the specification: it lacks
the `'.'` day/duration separator (or has several), its day token is not in
`day2min`, or a clock field of its duration is unparsable (including a
missing or repeated `'-'`). -/
def malformedEntry (e : String) : Bool :=
  let d := lower (strip e)
  match splitStr '.' d with
  | [dayRaw, durRaw] =>
    match dayOffset (strip dayRaw) with
    | none => true
    | some _ =>
      match splitStr '-' (strip durRaw) with
      | [st, en] => (clock2min st).isNone || (clock2min en).isNone
      | _ => true
  | _ => true

/-- Resolve two course names in a pool and test their intervals for
overlap (used only to state theorems about name-level solutions). -/
def overlapByName (cands : List Course) (a b : String) : Bool :=
  match cands.find? (fun c => c.name == a), cands.find? (fun c => c.name == b) with
  | some x, some y => hasOverlap x.dates y.dates
  | _, _ => false

/-- A course name that avoids the `'+'` delimiter of the conflict-graph
keys. -/
def plusFree (s : String) : Prop := '+' ∉ s.data

instance (s : String) : Decidable (plusFree s) := by
  unfold plusFree; infer_instance

/-- The identity shuffle oracle: one outcome `random.shuffle` can produce. -/
def idShuffle : Nat → List Course → List Course := fun _ l => l

/-- The identity oracle for the per-trial greedy shuffles. -/
def idShuffle2 : Nat → Nat → List Course → List Course := fun _ _ l => l

/-- An outer-shuffle oracle that reverses the pool before the second trial
and leaves it alone otherwise. -/
def revSecond : Nat → List Course → List Course :=
  fun i l => if i = 1 then l.reverse else l

/-- The candidate pool of specification scenarios 1 and 2: `CS101` and
`CS103` share the monday slot, `CS102` is on wednesday. -/
def scenarioRaw : List RawCourse :=
  [⟨"CS101", 3, "", "", "mon. 09:00-10:30"⟩,
   ⟨"CS102", 3, "", "", "wed. 09:00-10:30"⟩,
   ⟨"CS103", 6, "", "", "mon. 09:00-10:30"⟩]

/-- A pool exhibiting a cross-stage conflict: `CS1` matches the field
preference `"ai"`, `CS2` matches no preference, and both occupy the very
same monday slot. -/
def prefRaw : List RawCourse :=
  [⟨"CS1", 3, "AI", "lecture", "mon. 09:00-10:30"⟩,
   ⟨"CS2", 3, "SE", "lecture", "mon. 09:00-10:30"⟩]

/-- Two non-conflicting 3-credit courses whose exact-sum solution can come
out in either order depending on the shuffle. -/
def twinRaw : List RawCourse :=
  [⟨"CS1", 3, "", "", "mon. 09:00-10:30"⟩,
   ⟨"CS2", 3, "", "", "wed. 09:00-10:30"⟩]

/-- Chained-overlap courses for the greedy-skip experiment: `gCourseB`
overlaps `gCourseA`, `gCourseC` overlaps `gCourseB` but not `gCourseA`. -/
def gCourseA : Course := ⟨"A", 1, "", "", [(0, 10)]⟩

def gCourseB : Course := ⟨"B", 1, "", "", [(5, 20)]⟩

def gCourseC : Course := ⟨"C", 1, "", "", [(15, 30)]⟩

def greedySkipPool : List Course := [gCourseA, gCourseB, gCourseC]

/-- A pool whose names contain the `'+'` delimiter, so that the keys
`"a"+"+"+"b+c"` and `"a+b"+"+"+"c"` collide in the conflict dict. -/
def plusPool : List Course :=
  [⟨"a", 1, "", "", [(200, 210)]⟩,
   ⟨"b+c", 1, "", "", [(100, 110)]⟩,
   ⟨"a+b", 1, "", "", [(0, 10)]⟩,
   ⟨"c", 1, "", "", [(5, 15)]⟩]

def SolutionSpec (pool : List Course) (total : Int) (s : List String) : Prop :=
  ∃ cs : List Course, (∀ x ∈ cs, x ∈ pool) ∧ s.Perm (cs.map (·.name)) ∧
    ((cs.map (·.credit)).sum) = total

def scenarioCourses : List Course :=
  [⟨"CS101", 3, "", "", [(540, 630)]⟩,
   ⟨"CS102", 3, "", "", [(173340, 173430)]⟩,
   ⟨"CS103", 6, "", "", [(540, 630)]⟩]

def scenarioParsed : List (Course × List DispEntry) :=
  [(⟨"CS101", 3, "", "", [(540, 630)]⟩, [("mon", "09:00-10:30", 540, 630)]),
   (⟨"CS102", 3, "", "", [(173340, 173430)]⟩,
     [("wed", "09:00-10:30", 173340, 173430)]),
   (⟨"CS103", 6, "", "", [(540, 630)]⟩, [("mon", "09:00-10:30", 540, 630)])]


def NoOv (x y : Course) : Prop := hasOverlap x.dates y.dates = false

/-! ## Helper lemmas -/

/-- The backtracking helper pops exactly what it pushes: the stack
component of its result is the stack it was given. -/
theorem bruteForceAux_stack (g : List (String × Bool)) (cands : List Course)
    (tot : Int) :
    ∀ (rest : List Course) (cc : Int) (cid : Nat) (stack : List Nat)
      (sol : List String),
      (bruteForceAux g cands tot rest cc cid stack sol).2.1 = stack := by
  intro rest
  induction rest with
  | nil => intro cc cid stack sol; simp [bruteForceAux]
  | cons cur rest ih =>
    intro cc cid stack sol
    simp only [bruteForceAux]
    split
    · simp
    · split
      · simp
      · rcases hrec : bruteForceAux g cands tot rest (cc + cur.credit) (cid + 1)
            (stack ++ [cid]) sol with ⟨b, stack2, sol2⟩
        have h2 : stack2 = stack ++ [cid] := by
          have h3 := ih (cc + cur.credit) (cid + 1) (stack ++ [cid]) sol
          rw [hrec] at h3
          exact h3
        cases b
        · simp only [hrec]
          rw [ih, h2]
          simp
        · simp [hrec, h2]

/-- A malformed entry makes `parseEntry` raise. -/
theorem parseEntry_error_of_malformed (e : String) (h : malformedEntry e = true) :
    parseEntry e = .error () := by
  unfold malformedEntry at h
  unfold parseEntry
  rcases hs : splitStr '.' (lower (strip e)) with _ | ⟨d, _ | ⟨dur, _ | _⟩⟩ <;>
    simp only [hs] at h ⊢
  · rcases hd : dayOffset (strip d) with _ | off <;> simp only [hd] at h ⊢
    rcases hdur : splitStr '-' (strip dur) with _ | ⟨st, _ | ⟨en, _ | _⟩⟩ <;>
      simp only [hdur] at h ⊢
    rcases hst : clock2min st with _ | s <;> rcases hen : clock2min en with _ | t <;>
      simp_all

/-- `mapM` into `Except Unit` fails as soon as one element fails. -/
theorem mapM_loop_error {α β : Type} (f : α → Except Unit β) :
    ∀ (l : List α) (x : α) (acc : List β), x ∈ l → f x = .error () →
      List.mapM.loop f l acc = .error () := by
  intro l
  induction l with
  | nil => intro x acc hx; cases hx
  | cons a rest ih =>
    intro x acc hx hfx
    rcases List.mem_cons.mp hx with h | h
    · subst h
      simp [List.mapM.loop, hfx, Bind.bind, Except.bind]
    · cases hfa : f a with
      | error u => cases u; simp [List.mapM.loop, hfa, Bind.bind, Except.bind]
      | ok b =>
        simp [List.mapM.loop, hfa, Bind.bind, Except.bind, ih x (b :: acc) h hfx]

theorem mapM_error_of_mem {α β : Type} (f : α → Except Unit β)
    (l : List α) (x : α) (hx : x ∈ l) (hfx : f x = .error ()) :
    l.mapM f = .error () :=
  mapM_loop_error f l x [] hx hfx

/-- A malformed entry anywhere in a `Dates` string makes the whole parse
raise; no partial interval list is returned. -/
theorem changeTimeFormat_error_of_malformed (dates e : String)
    (he : e ∈ splitStr ';' dates) (hbad : malformedEntry e = true) :
    changeTimeFormat dates = .error () := by
  unfold changeTimeFormat
  rw [mapM_error_of_mem parseEntry _ e he (parseEntry_error_of_malformed e hbad)]
  rfl

/-- Lists ending a plus-free prefix at the first `'+'` decompose
uniquely. -/
theorem append_plus_inj : ∀ (as cs bs ds : List Char), '+' ∉ as → '+' ∉ cs →
    as ++ '+' :: bs = cs ++ '+' :: ds → as = cs ∧ bs = ds := by
  intro as
  induction as with
  | nil =>
    intro cs bs ds _ hc h
    cases cs with
    | nil => simpa using h
    | cons y cs =>
      simp only [List.nil_append, List.cons_append, List.cons.injEq] at h
      exact absurd (h.1 ▸ List.mem_cons_self y cs) hc
  | cons x as ih =>
    intro cs bs ds ha hc h
    cases cs with
    | nil =>
      simp only [List.cons_append, List.nil_append, List.cons.injEq] at h
      exact absurd (h.1 ▸ List.mem_cons_self x as) ha
    | cons y cs =>
      simp only [List.cons_append, List.cons.injEq] at h
      have := ih cs bs ds (fun hm => ha (List.mem_cons_of_mem x hm))
        (fun hm => hc (List.mem_cons_of_mem y hm)) h.2
      exact ⟨by rw [h.1, this.1], this.2⟩

/-- A conflict-graph key determines both names when the first components
are plus-free. -/
theorem plusKey_inj (a b c d : String) (ha : plusFree a) (hc : plusFree c)
    (h : a ++ "+" ++ b = c ++ "+" ++ d) : a = c ∧ b = d := by
  have hdata : a.data ++ '+' :: b.data = c.data ++ '+' :: d.data := by
    have := congrArg String.data h
    simpa [String.data_append] using this
  have := append_plus_inj a.data c.data b.data d.data ha hc hdata
  exact ⟨String.ext this.1, String.ext this.2⟩

/-- The assignments recorded by `_build_time_conflict_relation_graph` are
exactly the keyed overlap facts of the distinct-name candidate pairs. -/
theorem mem_buildGraphEntries (cands : List Course) (k : String) (v : Bool) :
    (k, v) ∈ buildGraphEntries cands ↔
      ∃ ci ∈ cands, ∃ cj ∈ cands, ci.name ≠ cj.name ∧
        k = ci.name ++ "+" ++ cj.name ∧ v = hasOverlap ci.dates cj.dates := by
  constructor
  · intro hmem
    have hmem2 : ∃ ci, ci ∈ cands ∧ (k, v) ∈ rowEntries cands ci := by
      simpa [buildGraphEntries] using hmem
    rcases hmem2 with ⟨ci, hci, hkv⟩
    have hkv2 := List.mem_filterMap.mp hkv
    rcases hkv2 with ⟨cj, hcj, hif⟩
    by_cases hne : ci.name = cj.name
    · simp [hne] at hif
    · rw [if_neg hne] at hif
      have h2 := Option.some.inj hif
      refine ⟨ci, hci, cj, hcj, hne, ?_, ?_⟩
      · exact (congrArg Prod.fst h2).symm
      · exact (congrArg Prod.snd h2).symm
  · rintro ⟨ci, hci, cj, hcj, hne, rfl, rfl⟩
    unfold buildGraphEntries
    refine List.mem_flatten.mpr ⟨rowEntries cands ci, List.mem_map_of_mem _ hci, ?_⟩
    unfold rowEntries
    exact List.mem_filterMap.mpr ⟨cj, hcj, by rw [if_neg hne]⟩

/-- A dict whose entries at key `k` all carry value `v` (and that has at
least one such entry) yields `v`. -/
theorem dictGet_eq_some_of (d : List (String × Bool)) (k : String) (v : Bool)
    (hex : ∃ e ∈ d, e.1 = k) (hall : ∀ e ∈ d, e.1 = k → e.2 = v) :
    dictGet d k = some v := by
  unfold dictGet
  have hex2 : ∃ e ∈ d.reverse, (fun e => e.1 == k) e = true := by
    rcases hex with ⟨e, he, hk⟩
    exact ⟨e, List.mem_reverse.mpr he, by simpa using hk⟩
  rcases Option.isSome_iff_exists.mp (List.find?_isSome.mpr hex2) with ⟨e, hfind⟩
  have hmem := List.mem_of_find?_eq_some hfind
  have hpred := List.find?_some hfind
  rw [hfind]
  have : e.2 = v :=
    hall e (List.mem_reverse.mp hmem) (by simpa using hpred)
  simp [this]

/-- In a pool with no duplicate names, the name determines the course. -/
theorem name_inj_of_nodup {cands : List Course}
    (hnn : (cands.map (·.name)).Nodup) {x y : Course}
    (hx : x ∈ cands) (hy : y ∈ cands) (h : x.name = y.name) : x = y :=
  List.inj_on_of_nodup_map hnn hx hy h

/-- On a pool of distinct plus-free names the conflict dict returns exactly
the overlap bit of the named pair. -/
theorem dictGet_buildGraph (cands : List Course)
    (hnn : (cands.map (·.name)).Nodup) (hpf : ∀ c ∈ cands, plusFree c.name)
    (a b : Course) (ha : a ∈ cands) (hb : b ∈ cands) (hne : a.name ≠ b.name) :
    dictGet (buildGraphEntries cands) (a.name ++ "+" ++ b.name) =
      some (hasOverlap a.dates b.dates) := by
  apply dictGet_eq_some_of
  · exact ⟨(a.name ++ "+" ++ b.name, hasOverlap a.dates b.dates),
      (mem_buildGraphEntries cands _ _).mpr ⟨a, ha, b, hb, hne, rfl, rfl⟩, rfl⟩
  · rintro ⟨k, v⟩ hmem hk
    rcases (mem_buildGraphEntries cands k v).mp hmem with
      ⟨ci, hci, cj, hcj, hnij, rfl, rfl⟩
    have hkey := plusKey_inj ci.name cj.name a.name b.name
      (hpf ci hci) (hpf a ha) hk
    have h1 : ci = a := name_inj_of_nodup hnn hci ha hkey.1
    have h2 : cj = b := name_inj_of_nodup hnn hcj hb hkey.2
    rw [h1, h2]

/-- `_has_overlap` is symmetric in its two interval lists. -/
theorem hasOverlap_comm (a b : List (Int × Int)) :
    hasOverlap a b = hasOverlap b a := by
  unfold hasOverlap
  apply Bool.eq_iff_iff.mpr
  simp only [List.any_eq_true, decide_eq_true_eq]
  constructor
  · rintro ⟨x, hx, y, hy, h⟩
    exact ⟨y, hy, x, hx, by omega⟩
  · rintro ⟨x, hx, y, hy, h⟩
    exact ⟨y, hy, x, hx, by omega⟩

theorem greedyLoopAux_spec (g : List (String × Bool)) (shuffled : List Course)
    (target : Int) :
    ∀ (rest : List Course) (i : Nat) (total : Int) (sols : List Course),
      ∃ ext : List Course,
        greedyLoopAux g shuffled target rest i total sols =
          (total + ((ext.map (·.credit)).sum), sols ++ ext) ∧
        ext.Sublist rest := by
  intro rest
  induction rest with
  | nil =>
    intro i total sols
    exact ⟨[], by simp [greedyLoopAux], List.Sublist.refl []⟩
  | cons course rest ih =>
    intro i total sols
    unfold greedyLoopAux
    by_cases hc : hasTimeConflictsForRandom g shuffled i = true
    · rcases ih (i + 1) total sols with ⟨ext, heq, hsub⟩
      exact ⟨ext, by rw [if_pos hc]; exact heq, hsub.cons course⟩
    · rw [if_neg hc]
      by_cases hb : total + course.credit > target
      · exact ⟨[], by rw [if_pos hb]; simp, List.nil_sublist _⟩
      · rw [if_neg hb]
        rcases ih (i + 1) (total + course.credit) (sols ++ [course]) with
          ⟨ext, heq, hsub⟩
        refine ⟨course :: ext, ?_, hsub.cons₂ course⟩
        rw [heq]
        refine Prod.ext ?_ ?_ <;> simp
        ring

theorem bruteForceAux_fail_sol (g : List (String × Bool)) (cands : List Course)
    (tot : Int) :
    ∀ (rest : List Course) (cc : Int) (cid : Nat) (stack : List Nat)
      (sol : List String) (st2 : List Nat) (so2 : List String),
      bruteForceAux g cands tot rest cc cid stack sol = (false, st2, so2) →
      so2 = sol := by
  intro rest
  induction rest with
  | nil =>
    intro cc cid stack sol st2 so2 h
    simp [bruteForceAux] at h
    exact h.2.symm
  | cons cur rest ih =>
    intro cc cid stack sol st2 so2 h
    unfold bruteForceAux at h
    by_cases hc : hasTimeConflicts g cands (stack ++ [cid]) cid = true
    · simp only [if_pos hc] at h
      injection h with h1 h2
      injection h2 with h2a h2b
      exact h2b.symm
    · simp only [if_neg hc] at h
      by_cases he : cc + cur.credit = tot
      · simp only [if_pos he] at h
        injection h with h1 h2
        cases h1
      · simp only [if_neg he] at h
        rcases hrec : bruteForceAux g cands tot rest (cc + cur.credit) (cid + 1)
            (stack ++ [cid]) sol with ⟨b, stB, soB⟩
        rw [hrec] at h
        cases b
        · have hmid : soB = sol := ih _ _ _ _ _ _ hrec
          have := ih cc (cid + 1) stB.dropLast soB st2 so2 h
          rw [this, hmid]
        · injection h with h1 h2
          cases h1

theorem bruteForceAux_success (g : List (String × Bool)) (cands : List Course)
    (tot : Int) :
    ∀ (rest : List Course) (cc : Int) (cid : Nat) (stack : List Nat)
      (sol : List String) (st2 : List Nat) (so2 : List String),
      bruteForceAux g cands tot rest cc cid stack sol = (true, st2, so2) →
      ∃ cs : List Course, cs.Sublist rest ∧
        so2 = sol ++ ((cs.map (·.name)).reverse) ∧
        ((cs.map (·.credit)).sum) = tot - cc := by
  intro rest
  induction rest with
  | nil =>
    intro cc cid stack sol st2 so2 h
    simp [bruteForceAux] at h
  | cons cur rest ih =>
    intro cc cid stack sol st2 so2 h
    unfold bruteForceAux at h
    by_cases hc : hasTimeConflicts g cands (stack ++ [cid]) cid = true
    · simp only [if_pos hc] at h
      injection h with h1 h2
      cases h1
    · simp only [if_neg hc] at h
      by_cases he : cc + cur.credit = tot
      · simp only [if_pos he] at h
        injection h with h1 h2
        injection h2 with h2a h2b
        refine ⟨[cur], by simp, by simp [h2b.symm], by simp; omega⟩
      · simp only [if_neg he] at h
        rcases hrec : bruteForceAux g cands tot rest (cc + cur.credit) (cid + 1)
            (stack ++ [cid]) sol with ⟨b, stB, soB⟩
        rw [hrec] at h
        cases b
        · have hmid : soB = sol := bruteForceAux_fail_sol g cands tot rest _ _ _ _ _ _ hrec
          rcases ih cc (cid + 1) stB.dropLast soB st2 so2 h with ⟨cs, hsub, hso, hsum⟩
          exact ⟨cs, hsub.cons cur, by rw [hso, hmid], hsum⟩
        · injection h with h1 h2
          injection h2 with h2a h2b
          rcases ih (cc + cur.credit) (cid + 1) (stack ++ [cid]) sol stB soB hrec with
            ⟨cs, hsub, hso, hsum⟩
          refine ⟨cur :: cs, hsub.cons₂ cur, ?_, ?_⟩
          · rw [← h2b, hso]
            simp
          · simp at hsum ⊢
            omega

theorem randomGreedyTrials_spec (g : List (String × Bool))
    (sh : Nat → List Course → List Course) (target : Int) (cands0 : List Course)
    (hsh : ∀ i l, (sh i l).Perm l) :
    ∀ (idxs : List Nat) (cur : List Course) (best : Int × List Course),
      cur.Perm cands0 →
      best.2.Subperm cands0 → best.1 = ((best.2.map (·.credit)).sum) →
      (randomGreedyTrials g sh target idxs cur best).2.Subperm cands0 ∧
      (randomGreedyTrials g sh target idxs cur best).1 =
        (((randomGreedyTrials g sh target idxs cur best).2.map (·.credit)).sum) := by
  intro idxs
  induction idxs with
  | nil =>
    intro cur best hcur hb1 hb2
    exact ⟨hb1, hb2⟩
  | cons i rest ih =>
    intro cur best hcur hb1 hb2
    unfold randomGreedyTrials
    dsimp only
    have hshuf : (sh i cur).Perm cands0 := (hsh i cur).trans hcur
    rcases greedyLoopAux_spec g (sh i cur) target (sh i cur) 0 0 [] with
      ⟨ext, heq, hsub⟩
    have hext : ext.Subperm cands0 := hsub.subperm.trans hshuf.subperm
    by_cases hgt : (greedyLoop g (sh i cur) target).1 > best.1
    · rw [if_pos hgt]
      refine ih (sh i cur) _ hshuf ?_ ?_
      · have : (greedyLoop g (sh i cur) target).2 = ext := by
          unfold greedyLoop; rw [heq]
          simp
        rw [this]; exact hext
      · unfold greedyLoop; rw [heq]; simp
    · rw [if_neg hgt]
      exact ih (sh i cur) best hshuf hb1 hb2

theorem randomGreedySelect_spec (g : List (String × Bool))
    (sh : Nat → List Course → List Course) (cands : List Course) (target : Int)
    (hsh : ∀ i l, (sh i l).Perm l) :
    ∃ cs : List Course, cs.Subperm cands ∧
      randomGreedySelect g sh cands target =
        (((cs.map (·.credit)).sum), cs.map (·.name)) := by
  unfold randomGreedySelect
  rcases randomGreedyTrials_spec g sh target cands hsh (List.range 10) cands (0, [])
      (List.Perm.refl _) List.nil_subperm (by simp) with ⟨h1, h2⟩
  refine ⟨(randomGreedyTrials g sh target (List.range 10) cands (0, [])).2, h1, ?_⟩
  dsimp only
  rw [h2]

theorem searchForPreference_spec (g : List (String × Bool))
    (sh : Nat → List Course → List Course) (names : List String)
    (cands : List Course) (target : Int) (hsh : ∀ i l, (sh i l).Perm l) :
    ∃ cs : List Course, (∀ x ∈ cs, x ∈ cands ∧ x.name ∈ names) ∧
      searchForPreference g sh names cands target =
        (((cs.map (·.credit)).sum), cs.map (·.name)) := by
  unfold searchForPreference
  by_cases hn : names.isEmpty
  · exact ⟨[], by simp, by rw [if_pos hn]; simp⟩
  · rw [if_neg hn]
    rcases randomGreedySelect_spec g sh
        (cands.filter (fun c => decide (c.name ∈ names))) target hsh with
      ⟨cs, hsub, heq⟩
    refine ⟨cs, ?_, heq⟩
    intro x hx
    have hxf : x ∈ cands.filter (fun c => decide (c.name ∈ names)) :=
      hsub.subset hx
    have := List.mem_filter.mp hxf
    exact ⟨this.1, by simpa using this.2⟩

theorem selectOneSolution_spec (g : List (String × Bool))
    (shA shB : Nat → List Course → List Course) (total : Int)
    (cands : List Course) (fieldC formatC : List String)
    (hA : ∀ i l, (shA i l).Perm l) (hB : ∀ i l, (shB i l).Perm l) :
    (∀ c ∈ (selectOneSolution g shA shB total cands fieldC formatC).2, c ∈ cands) ∧
    ((selectOneSolution g shA shB total cands fieldC formatC).1 ≠ [] →
      ∃ cs : List Course, (∀ x ∈ cs, x ∈ cands) ∧
        (selectOneSolution g shA shB total cands fieldC formatC).1.Perm
          (cs.map (·.name)) ∧
        ((cs.map (·.credit)).sum) = total) := by
  unfold selectOneSolution
  dsimp only
  rcases searchForPreference_spec g shA
      (fieldC.filter fun n => decide (n ∈ formatC)) cands
      (max 3 (halfTrunc total)) hA with ⟨csI, hIm, hIeq⟩
  rw [hIeq]
  dsimp only
  rcases searchForPreference_spec g shB
      ((fieldC ++ formatC.filter fun n => decide (n ∉ fieldC)).filter
        (fun n => decide (n ∉ csI.map (·.name)))) cands
      (max 0 (total - ((csI.map (·.credit)).sum))) hB with ⟨csU, hUm, hUeq⟩
  rw [hUeq]
  dsimp only
  by_cases hr : total - ((csI.map (·.credit)).sum) - ((csU.map (·.credit)).sum) = 0
  · rw [if_pos hr]
    refine ⟨fun c hc => hc, fun hne => ⟨csI ++ csU, ?_, ?_, ?_⟩⟩
    · intro x hx
      rcases List.mem_append.mp hx with h | h
      · exact (hIm x h).1
      · exact (hUm x h).1
    · rw [List.map_append]
    · rw [List.map_append, List.sum_append]
      omega
  · rw [if_neg hr]
    rcases hbf : bruteForce g
        (cands.filter fun c =>
          decide (¬ (c.name ∈ csI.map (·.name) ∨ c.name ∈ csU.map (·.name))))
        0 0 (total - ((csI.map (·.credit)).sum) - ((csU.map (·.credit)).sum)) [] []
      with ⟨b, st2, so2⟩
    have hbf2 : bruteForceAux g
        (cands.filter fun c =>
          decide (¬ (c.name ∈ csI.map (·.name) ∨ c.name ∈ csU.map (·.name))))
        (total - ((csI.map (·.credit)).sum) - ((csU.map (·.credit)).sum))
        (cands.filter fun c =>
          decide (¬ (c.name ∈ csI.map (·.name) ∨ c.name ∈ csU.map (·.name))))
        0 0 [] [] = (b, st2, so2) := by
      rw [← hbf]; unfold bruteForce; rw [List.drop_zero]
    cases b
    · dsimp only
      rw [if_neg (by simp : ¬ ((false : Bool) = true))]
      refine ⟨fun c hc => List.mem_of_mem_filter hc, fun hne => absurd rfl hne⟩
    · dsimp only
      rw [if_pos (rfl : (true : Bool) = true)]
      rcases bruteForceAux_success g _ _ _ 0 0 [] [] st2 so2 hbf2 with
        ⟨csB, hBsub, hBso, hBsum⟩
      refine ⟨fun c hc => List.mem_of_mem_filter hc, fun hne =>
        ⟨csI ++ csU ++ csB, ?_, ?_, ?_⟩⟩
      · intro x hx
        rcases List.mem_append.mp hx with h | h
        · rcases List.mem_append.mp h with h2 | h2
          · exact (hIm x h2).1
          · exact (hUm x h2).1
        · exact List.mem_of_mem_filter (hBsub.subset h)
      · rw [hBso]
        simp only [List.nil_append, List.map_append, List.append_assoc]
        refine List.Perm.append_left _ (List.Perm.append_left _ ?_)
        exact List.reverse_perm _
      · simp only [List.map_append, List.sum_append]
        omega

theorem runTrials_spec (g : List (String × Bool))
    (shOut : Nat → List Course → List Course)
    (shA shB : Nat → Nat → List Course → List Course) (total : Int)
    (fieldC formatC : List String) (cands1 : List Course)
    (hOut : ∀ i l, (shOut i l).Perm l)
    (hA : ∀ t i l, (shA t i l).Perm l) (hB : ∀ t i l, (shB t i l).Perm l) :
    ∀ (ts : List Nat) (pool : List Course) (acc : List (List String)),
      (∀ c ∈ pool, c ∈ cands1) →
      (∀ s ∈ acc, SolutionSpec cands1 total s) →
      ∀ s ∈ (runTrials g shOut shA shB total fieldC formatC ts pool acc).2,
        SolutionSpec cands1 total s := by
  intro ts
  induction ts with
  | nil => intro pool acc hpool hacc s hs; exact hacc s hs
  | cons t ts ih =>
    intro pool acc hpool hacc s hs
    unfold runTrials at hs
    dsimp only at hs
    have hpool1 : ∀ c ∈ shOut t pool, c ∈ cands1 := fun c hc =>
      hpool c ((hOut t pool).mem_iff.mp hc)
    rcases selectOneSolution_spec g (shA t) (shB t) total (shOut t pool)
        fieldC formatC (hA t) (hB t) with ⟨hsub, hsol⟩
    refine ih _ _ (fun c hc => hpool1 c (hsub c hc)) ?_ s hs
    intro s2 hs2
    by_cases hempty : (selectOneSolution g (shA t) (shB t) total (shOut t pool)
        fieldC formatC).1.isEmpty
    · rw [if_pos hempty] at hs2
      exact hacc s2 hs2
    · rw [if_neg hempty] at hs2
      rcases List.mem_append.mp hs2 with h | h
      · exact hacc s2 h
      · have hs2eq : s2 = (selectOneSolution g (shA t) (shB t) total
            (shOut t pool) fieldC formatC).1 := List.mem_singleton.mp h
        have hne : (selectOneSolution g (shA t) (shB t) total (shOut t pool)
            fieldC formatC).1 ≠ [] := by
          intro hcon
          rw [hcon] at hempty
          exact hempty rfl
        rcases hsol hne with ⟨cs, hcm, hperm, hsum⟩
        exact ⟨cs, fun x hx => hpool1 x (hcm x hx), hs2eq ▸ hperm, hsum⟩

theorem mapM_loop_ok_forall {α β : Type} (f : α → Except Unit β) :
    ∀ (l : List α) (acc res : List β),
      List.mapM.loop f l acc = .ok res →
      ∃ outs : List β, res = acc.reverse ++ outs ∧
        List.Forall₂ (fun a b => f a = .ok b) l outs := by
  intro l
  induction l with
  | nil =>
    intro acc res h
    have hres : acc.reverse = res := by
      simpa [List.mapM.loop, Pure.pure, Except.pure] using h
    exact ⟨[], by rw [← hres]; simp, List.Forall₂.nil⟩
  | cons a rest ih =>
    intro acc res h
    cases hfa : f a with
    | error u =>
      cases u
      rw [List.mapM.loop] at h
      rw [hfa] at h
      simp [Bind.bind, Except.bind] at h
    | ok b =>
      rw [List.mapM.loop] at h
      rw [hfa] at h
      simp only [Bind.bind, Except.bind] at h
      rcases ih (b :: acc) res h with ⟨outs, hres, htail⟩
      refine ⟨b :: outs, ?_, List.Forall₂.cons hfa htail⟩
      rw [hres]
      simp

theorem parseAll_forall (raw : List RawCourse)
    (pp : List (Course × List DispEntry)) (h : parseAll raw = .ok pp) :
    List.Forall₂ (fun rc p => parseCandidate rc = .ok p) raw pp := by
  rcases mapM_loop_ok_forall parseCandidate raw [] pp h with ⟨outs, hres, hfa⟩
  simpa [hres] using hfa

theorem parseCandidate_shape (rc : RawCourse) (p : Course × List DispEntry)
    (h : parseCandidate rc = .ok p) :
    p.1.name = rc.name ∧ p.1.credit = rc.credit := by
  unfold parseCandidate at h
  cases hct : changeTimeFormat rc.dates with
  | error u => rw [hct] at h; simp [Bind.bind, Except.bind] at h
  | ok v =>
    rw [hct] at h
    simp only [Bind.bind, Except.bind, Pure.pure, Except.pure] at h
    injection h with h2
    rw [← h2]
    exact ⟨rfl, rfl⟩

theorem forall₂_mem_right {α β : Type} {R : α → β → Prop} :
    ∀ {l₁ : List α} {l₂ : List β}, List.Forall₂ R l₁ l₂ →
      ∀ b ∈ l₂, ∃ a ∈ l₁, R a b := by
  intro l₁ l₂ h
  induction h with
  | nil => intro b hb; cases hb
  | cons hab htail ih =>
    intro b hb
    rcases List.mem_cons.mp hb with rfl | hb2
    · exact ⟨_, List.mem_cons_self _ _, hab⟩
    · rcases ih b hb2 with ⟨a, ha, hr⟩
      exact ⟨a, List.mem_cons_of_mem _ ha, hr⟩

theorem find_name_eq {l : List RawCourse} (hnn : (l.map (·.name)).Nodup) :
    ∀ {rc : RawCourse}, rc ∈ l → l.find? (fun x => x.name == rc.name) = some rc := by
  induction l with
  | nil => intro rc h; cases h
  | cons a rest ih =>
    intro rc h
    rcases List.mem_cons.mp h with rfl | hrest
    · exact List.find?_cons_of_pos _ (by simp)
    · have hane : (a.name == rc.name) = false := by
        rw [List.map_cons, List.nodup_cons] at hnn
        have : rc.name ∈ rest.map (·.name) := List.mem_map_of_mem _ hrest
        simp only [beq_eq_false_iff_ne, ne_eq]
        intro hcon
        exact hnn.1 (hcon ▸ this)
      rw [List.find?_cons_of_neg _ (by simp [hane])]
      have hnn2 : (rest.map (·.name)).Nodup := by
        rw [List.map_cons, List.nodup_cons] at hnn
        exact hnn.2
      exact ih hnn2 hrest

theorem name2creditOf_eq (raw : List RawCourse)
    (hnn : (raw.map (·.name)).Nodup) (rc : RawCourse) (h : rc ∈ raw) :
    name2creditOf raw rc.name = rc.credit := by
  unfold name2creditOf
  have hrev : (raw.reverse.map (·.name)).Nodup := by
    rw [List.map_reverse]
    exact List.nodup_reverse.mpr hnn
  rw [find_name_eq hrev (List.mem_reverse.mpr h)]
  rfl

theorem selectAfterParse_sum (shOut : Nat → List Course → List Course)
    (shA shB : Nat → Nat → List Course → List Course) (totalCredits : Int)
    (fields formats : List String) (raw : List RawCourse)
    (pp : List (Course × List DispEntry))
    (user : List (Int × Int) × List DispEntry)
    (hOut : ∀ i l, (shOut i l).Perm l)
    (hA : ∀ t i l, (shA t i l).Perm l) (hB : ∀ t i l, (shB t i l).Perm l)
    (hnn : (raw.map (·.name)).Nodup) (hpp : parseAll raw = .ok pp) :
    ∀ sol ∈ selectAfterParse shOut shA shB totalCredits fields formats raw pp user,
      ((sol.map (fun t => t.2.2)).sum) = totalCredits := by
  intro sol hsol
  unfold selectAfterParse at hsol
  dsimp only at hsol
  generalize hc1e : (pp.map (·.1)).filter
    (fun c => ! hasOverlap c.dates user.1) = cands1 at hsol
  generalize hrte : (runTrials (buildGraphEntries cands1) shOut shA shB
    totalCredits (filterCourses cands1 (·.field) fields)
    (filterCourses cands1 (·.format) formats) [0, 1, 2] cands1 []).2 = sols
    at hsol
  by_cases hempty : sols.isEmpty
  · rw [if_pos hempty] at hsol
    cases hsol
  · rw [if_neg hempty] at hsol
    by_cases hone : sols.dedup.length = 1 ∧ sols.dedup.head? = some []
    · rw [if_pos hone] at hsol
      cases hsol
    · rw [if_neg hone] at hsol
      rcases List.mem_map.mp hsol with ⟨ns, hns, rfl⟩
      have hnsols : ns ∈ sols := List.mem_dedup.mp hns
      have hspec := runTrials_spec (buildGraphEntries cands1) shOut shA shB
        totalCredits (filterCourses cands1 (·.field) fields)
        (filterCourses cands1 (·.format) formats) cands1 hOut hA hB [0, 1, 2]
        cands1 [] (fun c hc => hc) (fun s hs => absurd hs (List.not_mem_nil s))
        ns (by rw [hrte]; exact hnsols)
      rcases hspec with ⟨cs, hcm, hperm, hsum⟩
      have hcred : ∀ x ∈ cs, name2creditOf raw x.name = x.credit := by
        intro x hx
        have hx0 := hcm x hx
        rw [← hc1e] at hx0
        have hx1 : x ∈ pp.map (·.1) := List.mem_of_mem_filter hx0
        rcases List.mem_map.mp hx1 with ⟨p, hp, hpx⟩
        rcases forall₂_mem_right (parseAll_forall raw pp hpp) p hp with
          ⟨rc, hrc, hokp⟩
        rcases parseCandidate_shape rc p hokp with ⟨hname, hcredit⟩
        rw [← hpx, hname, name2creditOf_eq raw hnn rc hrc, hcredit]
      calc ((ns.map (fun n => (n, timeSlotsOf pp user.2 n,
              name2creditOf raw n))).map (fun t => t.2.2)).sum
          = (ns.map (fun n => name2creditOf raw n)).sum := by
            rw [List.map_map]; rfl
        _ = ((cs.map (·.name)).map (fun n => name2creditOf raw n)).sum :=
            (hperm.map _).sum_eq
        _ = (cs.map (fun x => name2creditOf raw x.name)).sum := by
            rw [List.map_map]; rfl
        _ = (cs.map (·.credit)).sum := by
            rw [List.map_congr_left hcred]
        _ = totalCredits := hsum

theorem sublist_three {α : Type _} {a b c : α} {s : List α}
    (h : s.Sublist [a, b, c]) :
    s = [] ∨ s = [a] ∨ s = [b] ∨ s = [c] ∨ s = [a, b] ∨ s = [a, c] ∨
    s = [b, c] ∨ s = [a, b, c] := by
  cases h with
  | cons _ h1 =>
    cases h1 with
    | cons _ h2 =>
      cases h2 with
      | cons _ h3 =>
        rw [List.sublist_nil.mp h3]
        tauto
      | cons₂ _ h3 =>
        rw [List.sublist_nil.mp h3]
        tauto
    | cons₂ _ h2 =>
      cases h2 with
      | cons _ h3 =>
        rw [List.sublist_nil.mp h3]
        tauto
      | cons₂ _ h3 =>
        rw [List.sublist_nil.mp h3]
        tauto
  | cons₂ _ h1 =>
    cases h1 with
    | cons _ h2 =>
      cases h2 with
      | cons _ h3 =>
        rw [List.sublist_nil.mp h3]
        tauto
      | cons₂ _ h3 =>
        rw [List.sublist_nil.mp h3]
        tauto
    | cons₂ _ h2 =>
      cases h2 with
      | cons _ h3 =>
        rw [List.sublist_nil.mp h3]
        tauto
      | cons₂ _ h3 =>
        rw [List.sublist_nil.mp h3]
        tauto

theorem selectOneSolution_no_prefs (g : List (String × Bool))
    (shA shB : Nat → List Course → List Course) (total : Int)
    (pool : List Course) (htot : ¬ (total = 0))
    (hbf : (bruteForce g pool 0 0 total [] []).1 = false) :
    selectOneSolution g shA shB total pool [] [] = ([], pool) := by
  unfold selectOneSolution
  dsimp only
  have h1 : searchForPreference g shA
      (([] : List String).filter fun n => decide (n ∈ ([] : List String))) pool
      (max 3 (halfTrunc total)) = (0, []) := rfl
  rw [h1]
  dsimp only
  have h2 : searchForPreference g shB
      (((([] : List String) ++ ([] : List String).filter fun n =>
        decide (n ∉ ([] : List String))).filter
          (fun n => decide (n ∉ ([] : List String))))) pool
      (max 0 (total - 0)) = (0, []) := rfl
  rw [h2]
  dsimp only
  rw [if_neg (by omega : ¬ (total - 0 - 0 = 0))]
  have h3 : pool.filter (fun c => decide (¬ (c.name ∈ ([] : List String) ∨
      c.name ∈ ([] : List String)))) = pool :=
    List.filter_eq_self.mpr (fun a _ => by simp)
  rw [h3]
  have h4 : total - 0 - 0 = total := by omega
  rw [h4]
  rw [if_neg (by rw [hbf]; exact Bool.false_ne_true)]

theorem bruteForce_scenario_fails (g : List (String × Bool))
    (pool : List Course) (hperm : pool.Perm scenarioCourses) :
    (bruteForce g pool 0 0 5 [] []).1 = false := by
  rcases hbf : bruteForce g pool 0 0 5 [] [] with ⟨b, st, so⟩
  cases b
  · rfl
  · exfalso
    have hbf2 : bruteForceAux g pool 5 pool 0 0 [] [] = (true, st, so) := by
      rw [← hbf]; unfold bruteForce; rw [List.drop_zero]
    rcases bruteForceAux_success g pool 5 pool 0 0 [] [] st so hbf2 with
      ⟨cs, hsub, hso, hsum⟩
    rcases hsub.subperm.trans hperm.subperm with ⟨l, hlperm, hlsub⟩
    have hsum2 : ((l.map (·.credit)).sum) = 5 := by
      rw [(hlperm.map (·.credit)).sum_eq, hsum]
      omega
    have hsc : scenarioCourses =
        [⟨"CS101", 3, "", "", [(540, 630)]⟩,
         ⟨"CS102", 3, "", "", [(173340, 173430)]⟩,
         ⟨"CS103", 6, "", "", [(540, 630)]⟩] := rfl
    rw [hsc] at hlsub
    rcases sublist_three hlsub with h | h | h | h | h | h | h | h <;>
      rw [h] at hsum2 <;> simp at hsum2

theorem runTrials_scenario (g : List (String × Bool))
    (shOut : Nat → List Course → List Course)
    (shA shB : Nat → Nat → List Course → List Course)
    (hOut : ∀ i l, (shOut i l).Perm l) :
    ∀ (ts : List Nat) (pool : List Course), pool.Perm scenarioCourses →
      (runTrials g shOut shA shB 5 [] [] ts pool []).2 = [] := by
  intro ts
  induction ts with
  | nil => intro pool hp; rfl
  | cons t ts ih =>
    intro pool hp
    unfold runTrials
    dsimp only
    have hp1 : (shOut t pool).Perm scenarioCourses := (hOut t pool).trans hp
    have hfail := bruteForce_scenario_fails g (shOut t pool) hp1
    rw [selectOneSolution_no_prefs g (shA t) (shB t) 5 (shOut t pool)
      (by omega) hfail]
    dsimp only
    exact ih (shOut t pool) hp1

theorem for_random_false (cands1 : List Course)
    (hnn : (cands1.map (·.name)).Nodup) (hpf : ∀ c ∈ cands1, plusFree c.name)
    (shuffled : List Course) (hmem : ∀ x ∈ shuffled, x ∈ cands1)
    (hnds : (shuffled.map (·.name)).Nodup) (i : Nat) (hi : i < shuffled.length)
    (hconf : hasTimeConflictsForRandom (buildGraphEntries cands1) shuffled i = false) :
    ∀ x ∈ shuffled.take i, NoOv x shuffled[i] := by
  intro x hx
  unfold hasTimeConflictsForRandom at hconf
  rw [List.getElem?_eq_getElem hi] at hconf
  have hpred := List.any_eq_false.mp hconf x hx
  have hxmem : x ∈ shuffled := List.mem_of_mem_take hx
  by_cases hname : x.name = shuffled[i].name
  · exfalso
    have hxeq : x = shuffled[i] :=
      name_inj_of_nodup hnn (hmem x hxmem) (hmem shuffled[i] (List.getElem_mem hi)) hname
    have hnodup : shuffled.Nodup := List.Nodup.of_map _ hnds
    have hdisj := List.disjoint_take_drop hnodup (le_refl i)
    apply hdisj hx
    rw [hxeq]
    have : shuffled[i] :: shuffled.drop (i + 1) = shuffled.drop i :=
      List.getElem_cons_drop shuffled i hi
    rw [← this]
    exact List.mem_cons_self _ _
  · have hb : (x.name != shuffled[i].name) = true := by
      simp [bne_iff_ne, hname]
    rw [hb, Bool.true_and] at hpred
    have hlook := dictGet_buildGraph cands1 hnn hpf x shuffled[i]
      (hmem x hxmem) (hmem shuffled[i] (List.getElem_mem hi)) hname
    rw [hlook] at hpred
    simpa [NoOv] using hpred

theorem greedyLoopAux_pairwise (cands1 : List Course)
    (hnn : (cands1.map (·.name)).Nodup) (hpf : ∀ c ∈ cands1, plusFree c.name)
    (shuffled : List Course) (hmem : ∀ x ∈ shuffled, x ∈ cands1)
    (hnds : (shuffled.map (·.name)).Nodup) (target : Int) :
    ∀ (rest : List Course) (i : Nat) (total : Int) (sols : List Course),
      rest = shuffled.drop i → (∀ x ∈ sols, x ∈ shuffled.take i) →
      sols.Pairwise NoOv →
      ((greedyLoopAux (buildGraphEntries cands1) shuffled target rest i total
        sols).2).Pairwise NoOv := by
  intro rest
  induction rest with
  | nil =>
    intro i total sols hdrop hsols hpw
    simpa [greedyLoopAux] using hpw
  | cons course rest ih =>
    intro i total sols hdrop hsols hpw
    have hi : i < shuffled.length := by
      by_contra hcon
      rw [List.drop_eq_nil_of_le (by omega)] at hdrop
      cases hdrop
    have hcons : shuffled[i] :: shuffled.drop (i + 1) = shuffled.drop i :=
      List.getElem_cons_drop shuffled i hi
    rw [← hcons] at hdrop
    injection hdrop with hcourse hrest
    unfold greedyLoopAux
    by_cases hc : hasTimeConflictsForRandom (buildGraphEntries cands1)
        shuffled i = true
    · rw [if_pos hc]
      refine ih (i + 1) total sols hrest ?_ hpw
      intro x hx
      have := hsols x hx
      rw [List.take_succ]
      exact List.mem_append_left _ this
    · rw [if_neg hc]
      by_cases hb : total + course.credit > target
      · rw [if_pos hb]
        exact hpw
      · rw [if_neg hb]
        have hcf : hasTimeConflictsForRandom (buildGraphEntries cands1)
            shuffled i = false := Bool.not_eq_true _ ▸ eq_false_of_ne_true hc
        have hnoov := for_random_false cands1 hnn hpf shuffled hmem hnds i hi hcf
        refine ih (i + 1) (total + course.credit) (sols ++ [course])
          hrest ?_ ?_
        · intro x hx
          rcases List.mem_append.mp hx with h | h
          · rw [List.take_succ]
            exact List.mem_append_left _ (hsols x h)
          · rw [List.mem_singleton.mp h, List.take_succ, hcourse]
            refine List.mem_append_right _ ?_
            rw [List.getElem?_eq_getElem hi]
            exact List.mem_cons_self _ _
        · rw [List.pairwise_append]
          refine ⟨hpw, List.pairwise_singleton _ _, ?_⟩
          intro x hx y hy
          rw [List.mem_singleton.mp hy, hcourse]
          exact hnoov x (hsols x hx)

theorem randomGreedyTrials_full (cands1 : List Course)
    (hnn : (cands1.map (·.name)).Nodup) (hpf : ∀ c ∈ cands1, plusFree c.name)
    (sh : Nat → List Course → List Course) (hsh : ∀ i l, (sh i l).Perm l)
    (target : Int) (cands0 : List Course)
    (hnd0 : (cands0.map (·.name)).Nodup) (hmem0 : ∀ x ∈ cands0, x ∈ cands1) :
    ∀ (idxs : List Nat) (cur : List Course) (best : Int × List Course),
      cur.Perm cands0 → best.2.Pairwise NoOv →
      ((randomGreedyTrials (buildGraphEntries cands1) sh target idxs cur
        best).2).Pairwise NoOv := by
  intro idxs
  induction idxs with
  | nil => intro cur best hcur hpw; exact hpw
  | cons i rest ih =>
    intro cur best hcur hpw
    unfold randomGreedyTrials
    dsimp only
    have hshuf : (sh i cur).Perm cands0 := (hsh i cur).trans hcur
    have hmemS : ∀ x ∈ sh i cur, x ∈ cands1 := fun x hx =>
      hmem0 x (hshuf.mem_iff.mp hx)
    have hndS : ((sh i cur).map (·.name)).Nodup :=
      (hshuf.map (·.name)).nodup_iff.mpr hnd0
    have htrial : ((greedyLoop (buildGraphEntries cands1) (sh i cur)
        target).2).Pairwise NoOv := by
      unfold greedyLoop
      exact greedyLoopAux_pairwise cands1 hnn hpf (sh i cur) hmemS hndS target
        (sh i cur) 0 0 [] (by simp) (by simp) List.Pairwise.nil
    by_cases hgt : (greedyLoop (buildGraphEntries cands1) (sh i cur) target).1 >
        best.1
    · rw [if_pos hgt]
      exact ih (sh i cur) _ hshuf htrial
    · rw [if_neg hgt]
      exact ih (sh i cur) best hshuf hpw

theorem randomGreedySelect_full (cands1 : List Course)
    (hnn : (cands1.map (·.name)).Nodup) (hpf : ∀ c ∈ cands1, plusFree c.name)
    (sh : Nat → List Course → List Course) (hsh : ∀ i l, (sh i l).Perm l)
    (cands0 : List Course) (target : Int)
    (hnd0 : (cands0.map (·.name)).Nodup) (hmem0 : ∀ x ∈ cands0, x ∈ cands1) :
    ∃ cs : List Course, cs.Subperm cands0 ∧ cs.Pairwise NoOv ∧
      randomGreedySelect (buildGraphEntries cands1) sh cands0 target =
        (((cs.map (·.credit)).sum), cs.map (·.name)) := by
  rcases randomGreedyTrials_spec (buildGraphEntries cands1) sh target cands0 hsh
      (List.range 10) cands0 (0, []) (List.Perm.refl _) List.nil_subperm
      (by simp) with ⟨h1, h2⟩
  have h3 := randomGreedyTrials_full cands1 hnn hpf sh hsh target cands0 hnd0
    hmem0 (List.range 10) cands0 (0, []) (List.Perm.refl _) List.Pairwise.nil
  refine ⟨(randomGreedyTrials (buildGraphEntries cands1) sh target
    (List.range 10) cands0 (0, [])).2, h1, h3, ?_⟩
  unfold randomGreedySelect
  dsimp only
  rw [h2]

theorem searchForPreference_full (cands1 : List Course)
    (hnn : (cands1.map (·.name)).Nodup) (hpf : ∀ c ∈ cands1, plusFree c.name)
    (sh : Nat → List Course → List Course) (hsh : ∀ i l, (sh i l).Perm l)
    (names : List String) (cands : List Course) (target : Int)
    (hmem : ∀ c ∈ cands, c ∈ cands1) (hnd : (cands.map (·.name)).Nodup) :
    ∃ cs : List Course, (∀ x ∈ cs, x ∈ cands ∧ x.name ∈ names) ∧
      cs.Pairwise NoOv ∧
      searchForPreference (buildGraphEntries cands1) sh names cands target =
        (((cs.map (·.credit)).sum), cs.map (·.name)) := by
  unfold searchForPreference
  by_cases hn : names.isEmpty
  · exact ⟨[], by simp, List.Pairwise.nil, by rw [if_pos hn]; simp⟩
  · rw [if_neg hn]
    have hndf : ((cands.filter (fun c => decide (c.name ∈ names))).map
        (·.name)).Nodup :=
      List.Nodup.sublist (List.Sublist.map _ (List.filter_sublist _)) hnd
    have hmemf : ∀ x ∈ cands.filter (fun c => decide (c.name ∈ names)),
        x ∈ cands1 := fun x hx => hmem x (List.mem_of_mem_filter hx)
    rcases randomGreedySelect_full cands1 hnn hpf sh hsh
        (cands.filter (fun c => decide (c.name ∈ names))) target hndf hmemf with
      ⟨cs, hsub, hpw, heq⟩
    refine ⟨cs, ?_, hpw, heq⟩
    intro x hx
    have hxf : x ∈ cands.filter (fun c => decide (c.name ∈ names)) :=
      hsub.subset hx
    have := List.mem_filter.mp hxf
    exact ⟨this.1, by simpa using this.2⟩

theorem hasTimeConflictsAux_false (cands1 : List Course)
    (hnn : (cands1.map (·.name)).Nodup) (hpf : ∀ c ∈ cands1, plusFree c.name)
    (cands : List Course) (hmem : ∀ x ∈ cands, x ∈ cands1) (cur : Course)
    (hcur : cur ∈ cands1) :
    ∀ (stack : List Nat),
      (∀ j ∈ stack, j < cands.length) →
      hasTimeConflictsAux (buildGraphEntries cands1) cands cur stack = false →
      ∀ j (hj : j ∈ stack) (hlt : j < cands.length),
        cands[j].name ≠ cur.name →
        hasOverlap cands[j].dates cur.dates = false := by
  intro stack
  induction stack with
  | nil =>
    intro hval hfalse j hj
    cases hj
  | cons pre rest ih =>
    intro hval hfalse j hj hlt hne
    have hprelt : pre < cands.length := hval pre (List.mem_cons_self _ _)
    unfold hasTimeConflictsAux at hfalse
    rw [List.getElem?_eq_getElem hprelt] at hfalse
    dsimp only at hfalse
    rcases List.mem_cons.mp hj with rfl | hjrest
    · rw [if_neg hne] at hfalse
      have hlook := dictGet_buildGraph cands1 hnn hpf cands[j] cur
        (hmem _ (List.getElem_mem hlt)) hcur hne
      rw [hlook] at hfalse
      dsimp only at hfalse
      by_cases hov : hasOverlap cands[j].dates cur.dates
      · rw [if_pos hov] at hfalse
        simp at hfalse
      · simpa using hov
    · by_cases hpname : cands[pre].name = cur.name
      · rw [if_pos hpname] at hfalse
        exact ih (fun k hk => hval k (List.mem_cons_of_mem _ hk)) hfalse j
          hjrest hlt hne
      · rw [if_neg hpname] at hfalse
        have hlook := dictGet_buildGraph cands1 hnn hpf cands[pre] cur
          (hmem _ (List.getElem_mem hprelt)) hcur hpname
        rw [hlook] at hfalse
        dsimp only at hfalse
        by_cases hov : hasOverlap cands[pre].dates cur.dates
        · rw [if_pos hov] at hfalse
          simp at hfalse
        · rw [if_neg hov] at hfalse
          exact ih (fun k hk => hval k (List.mem_cons_of_mem _ hk)) hfalse j
            hjrest hlt hne

theorem name_ne_of_index_ne (cands : List Course)
    (hndc : (cands.map (·.name)).Nodup) (j k : Nat) (hj : j < cands.length)
    (hk : k < cands.length) (hne : j ≠ k) : cands[j].name ≠ cands[k].name := by
  intro hcon
  apply hne
  have hlen : cands.length = (cands.map (·.name)).length := by simp
  have := List.Nodup.get_inj_iff hndc
    (i := ⟨j, by omega⟩) (j := ⟨k, by omega⟩)
  simp only [List.get_eq_getElem, List.getElem_map] at this
  have h2 := this.mp hcon
  simpa using congrArg Fin.val h2

theorem bruteForceAux_pairwise (cands1 : List Course)
    (hnn : (cands1.map (·.name)).Nodup) (hpf : ∀ c ∈ cands1, plusFree c.name)
    (cands : List Course) (hmem : ∀ x ∈ cands, x ∈ cands1)
    (hndc : (cands.map (·.name)).Nodup) (tot : Int) :
    ∀ (rest : List Course) (cc : Int) (cid : Nat) (stack : List Nat)
      (sol : List String) (st2 : List Nat) (so2 : List String),
      rest = cands.drop cid → (∀ j ∈ stack, j < cid) →
      bruteForceAux (buildGraphEntries cands1) cands tot rest cc cid stack sol =
        (true, st2, so2) →
      ∃ cs : List Course, cs.Sublist rest ∧
        so2 = sol ++ ((cs.map (·.name)).reverse) ∧ cs.Pairwise NoOv ∧
        (∀ x ∈ cs, ∀ j (hj : j ∈ stack) (hlt : j < cands.length),
          NoOv cands[j] x) := by
  intro rest
  induction rest with
  | nil =>
    intro cc cid stack sol st2 so2 hdrop hstack h
    simp [bruteForceAux] at h
  | cons cur rest ih =>
    intro cc cid stack sol st2 so2 hdrop hstack h
    have hcid : cid < cands.length := by
      by_contra hcon
      rw [List.drop_eq_nil_of_le (by omega)] at hdrop
      cases hdrop
    have hcons : cands[cid] :: cands.drop (cid + 1) = cands.drop cid :=
      List.getElem_cons_drop cands cid hcid
    rw [← hcons] at hdrop
    injection hdrop with hcourse hrest
    unfold bruteForceAux at h
    dsimp only at h
    by_cases hc : hasTimeConflicts (buildGraphEntries cands1) cands
        (stack ++ [cid]) cid = true
    · rw [if_pos hc] at h
      injection h with h1
      cases h1
    · rw [if_neg hc] at h
      have hcf : hasTimeConflicts (buildGraphEntries cands1) cands
          (stack ++ [cid]) cid = false := eq_false_of_ne_true hc
      have hauxf : hasTimeConflictsAux (buildGraphEntries cands1) cands
          cands[cid] (stack ++ [cid]) = false := by
        unfold hasTimeConflicts at hcf
        rw [List.getElem?_eq_getElem hcid] at hcf
        exact hcf
      have hstackval : ∀ j ∈ stack ++ [cid], j < cands.length := by
        intro j hjm
        rcases List.mem_append.mp hjm with hh | hh
        · exact lt_trans (hstack j hh) hcid
        · rw [List.mem_singleton.mp hh]; exact hcid
      have hTC := hasTimeConflictsAux_false cands1 hnn hpf cands hmem
        cands[cid] (hmem _ (List.getElem_mem hcid)) (stack ++ [cid])
        hstackval hauxf
      have hR : ∀ j ∈ stack, ∀ (hlt : j < cands.length),
          NoOv cands[j] cands[cid] := by
        intro j hjm hlt
        have hjne : j ≠ cid := by
          have := hstack j hjm; omega
        exact hTC j (List.mem_append_left _ hjm) hlt
          (name_ne_of_index_ne cands hndc j cid hlt hcid hjne)
      by_cases hex : cc + cur.credit = tot
      · rw [if_pos hex] at h
        injection h with h1 h2
        injection h2 with h2a h2b
        refine ⟨[cur], (List.nil_sublist rest).cons₂ cur, by simp [h2b.symm],
          List.pairwise_singleton _ _, ?_⟩
        intro x hx j hjm hlt
        rw [List.mem_singleton.mp hx, hcourse]
        exact hR j hjm hlt
      · rw [if_neg hex] at h
        rcases hrec : bruteForceAux (buildGraphEntries cands1) cands tot rest
            (cc + cur.credit) (cid + 1) (stack ++ [cid]) sol with ⟨b, stB, soB⟩
        rw [hrec] at h
        cases b
        · dsimp only at h
          have hstB : stB = stack ++ [cid] := by
            have h5 := bruteForceAux_stack (buildGraphEntries cands1) cands tot
              rest (cc + cur.credit) (cid + 1) (stack ++ [cid]) sol
            rw [hrec] at h5
            exact h5
          have hsoB : soB = sol :=
            bruteForceAux_fail_sol (buildGraphEntries cands1) cands tot rest
              _ _ _ _ _ _ hrec
          rw [hstB, List.dropLast_concat] at h
          rcases ih cc (cid + 1) stack soB st2 so2 hrest
              (fun j hjm => lt_trans (hstack j hjm) (by omega)) h with
            ⟨cs, hsub, hshape, hpw, hrel⟩
          exact ⟨cs, hsub.cons cur, by rw [hshape, hsoB], hpw, hrel⟩
        · dsimp only at h
          injection h with h1 h2
          injection h2 with h2a h2b
          rcases ih (cc + cur.credit) (cid + 1) (stack ++ [cid]) sol stB soB
              hrest
              (by
                intro j hjm
                rcases List.mem_append.mp hjm with hh | hh
                · exact lt_trans (hstack j hh) (by omega)
                · rw [List.mem_singleton.mp hh]; omega)
              hrec with ⟨cs1, hsub, hshape, hpw, hrel⟩
          refine ⟨cur :: cs1, hsub.cons₂ cur, ?_, ?_, ?_⟩
          · rw [← h2b, hshape]
            simp
          · refine List.Pairwise.cons ?_ hpw
            intro x hx
            have := hrel x hx cid (List.mem_append_right _
              (List.mem_singleton_self cid)) hcid
            rw [hcourse]
            exact this
          · intro x hx j hjm hlt
            rcases List.mem_cons.mp hx with rfl | hx2
            · rw [hcourse]
              exact hR j hjm hlt
            · exact hrel x hx2 j (List.mem_append_left _ hjm) hlt

theorem selectOneSolution_stagewise (cands1 : List Course)
    (hnn : (cands1.map (·.name)).Nodup) (hpf : ∀ c ∈ cands1, plusFree c.name)
    (shA shB : Nat → List Course → List Course) (total : Int)
    (cands : List Course) (fieldC formatC : List String)
    (hA : ∀ i l, (shA i l).Perm l) (hB : ∀ i l, (shB i l).Perm l)
    (hmemc : ∀ c ∈ cands, c ∈ cands1) (hndc : (cands.map (·.name)).Nodup) :
    ∃ cs1 cs2 cs3 : List Course,
      (selectOneSolution (buildGraphEntries cands1) shA shB total cands fieldC
        formatC).1 =
        cs1.map (·.name) ++ cs2.map (·.name) ++ ((cs3.map (·.name)).reverse) ∧
      cs1.Pairwise NoOv ∧ cs2.Pairwise NoOv ∧ cs3.Pairwise NoOv ∧
      (∀ x ∈ cs1, x ∈ cands) ∧ (∀ x ∈ cs2, x ∈ cands) ∧
      (∀ x ∈ cs3, x ∈ cands) := by
  unfold selectOneSolution
  dsimp only
  rcases searchForPreference_full cands1 hnn hpf shA hA
      (fieldC.filter fun n => decide (n ∈ formatC)) cands
      (max 3 (halfTrunc total)) hmemc hndc with ⟨csI, hIm, hIpw, hIeq⟩
  rw [hIeq]
  dsimp only
  rcases searchForPreference_full cands1 hnn hpf shB hB
      ((fieldC ++ formatC.filter fun n => decide (n ∉ fieldC)).filter
        (fun n => decide (n ∉ csI.map (·.name)))) cands
      (max 0 (total - ((csI.map (·.credit)).sum))) hmemc hndc with
    ⟨csU, hUm, hUpw, hUeq⟩
  rw [hUeq]
  dsimp only
  by_cases hr : total - ((csI.map (·.credit)).sum) -
      ((csU.map (·.credit)).sum) = 0
  · rw [if_pos hr]
    exact ⟨csI, csU, [], by simp, hIpw, hUpw, List.Pairwise.nil,
      fun x hx => (hIm x hx).1, fun x hx => (hUm x hx).1, by simp⟩
  · rw [if_neg hr]
    rcases hbf : bruteForce (buildGraphEntries cands1)
        (cands.filter fun c =>
          decide (¬ (c.name ∈ csI.map (·.name) ∨ c.name ∈ csU.map (·.name))))
        0 0 (total - ((csI.map (·.credit)).sum) - ((csU.map (·.credit)).sum))
        [] [] with ⟨b, st2, so2⟩
    have hbf2 : bruteForceAux (buildGraphEntries cands1)
        (cands.filter fun c =>
          decide (¬ (c.name ∈ csI.map (·.name) ∨ c.name ∈ csU.map (·.name))))
        (total - ((csI.map (·.credit)).sum) - ((csU.map (·.credit)).sum))
        (cands.filter fun c =>
          decide (¬ (c.name ∈ csI.map (·.name) ∨ c.name ∈ csU.map (·.name))))
        0 0 [] [] = (b, st2, so2) := by
      rw [← hbf]; unfold bruteForce; rw [List.drop_zero]
    cases b
    · dsimp only
      rw [if_neg (by simp : ¬ ((false : Bool) = true))]
      exact ⟨[], [], [], by simp, List.Pairwise.nil, List.Pairwise.nil,
        List.Pairwise.nil, by simp, by simp, by simp⟩
    · dsimp only
      rw [if_pos (rfl : (true : Bool) = true)]
      have hmemf : ∀ x ∈ cands.filter (fun c =>
          decide (¬ (c.name ∈ csI.map (·.name) ∨ c.name ∈ csU.map (·.name)))),
          x ∈ cands1 := fun x hx => hmemc x (List.mem_of_mem_filter hx)
      have hndf : ((cands.filter (fun c =>
          decide (¬ (c.name ∈ csI.map (·.name) ∨
            c.name ∈ csU.map (·.name))))).map (·.name)).Nodup :=
        List.Nodup.sublist (List.Sublist.map _ (List.filter_sublist _)) hndc
      rcases bruteForceAux_pairwise cands1 hnn hpf _ hmemf hndf _ _ 0 0 [] []
          st2 so2 (by rw [List.drop_zero]) (by simp) hbf2 with
        ⟨cs3, hsub, hshape, hpw3, _⟩
      refine ⟨csI, csU, cs3, ?_, hIpw, hUpw, hpw3,
        fun x hx => (hIm x hx).1, fun x hx => (hUm x hx).1,
        fun x hx => List.mem_of_mem_filter (hsub.subset hx)⟩
      rw [hshape]
      simp

theorem selectOneSolution_pool_nodup (g : List (String × Bool))
    (shA shB : Nat → List Course → List Course) (total : Int)
    (cands : List Course) (fieldC formatC : List String)
    (hndc : (cands.map (·.name)).Nodup) :
    (((selectOneSolution g shA shB total cands fieldC formatC).2).map
      (·.name)).Nodup := by
  unfold selectOneSolution
  dsimp only
  split
  · exact hndc
  · split
    · exact List.Nodup.sublist (List.Sublist.map _ (List.filter_sublist _)) hndc
    · exact List.Nodup.sublist (List.Sublist.map _ (List.filter_sublist _)) hndc

theorem runTrials_stagewise (cands1 : List Course)
    (hnn : (cands1.map (·.name)).Nodup) (hpf : ∀ c ∈ cands1, plusFree c.name)
    (shOut : Nat → List Course → List Course)
    (shA shB : Nat → Nat → List Course → List Course) (total : Int)
    (fieldC formatC : List String)
    (hOut : ∀ i l, (shOut i l).Perm l)
    (hA : ∀ t i l, (shA t i l).Perm l) (hB : ∀ t i l, (shB t i l).Perm l) :
    ∀ (ts : List Nat) (pool : List Course) (acc : List (List String)),
      (∀ c ∈ pool, c ∈ cands1) → ((pool.map (·.name)).Nodup) →
      (∀ s ∈ acc, ∃ cs1 cs2 cs3 : List Course,
        s = cs1.map (·.name) ++ cs2.map (·.name) ++ ((cs3.map (·.name)).reverse) ∧
        cs1.Pairwise NoOv ∧ cs2.Pairwise NoOv ∧ cs3.Pairwise NoOv ∧
        (∀ x ∈ cs1, x ∈ cands1) ∧ (∀ x ∈ cs2, x ∈ cands1) ∧
        (∀ x ∈ cs3, x ∈ cands1)) →
      ∀ s ∈ (runTrials (buildGraphEntries cands1) shOut shA shB total fieldC
          formatC ts pool acc).2,
        ∃ cs1 cs2 cs3 : List Course,
          s = cs1.map (·.name) ++ cs2.map (·.name) ++
            ((cs3.map (·.name)).reverse) ∧
          cs1.Pairwise NoOv ∧ cs2.Pairwise NoOv ∧ cs3.Pairwise NoOv ∧
          (∀ x ∈ cs1, x ∈ cands1) ∧ (∀ x ∈ cs2, x ∈ cands1) ∧
          (∀ x ∈ cs3, x ∈ cands1) := by
  intro ts
  induction ts with
  | nil => intro pool acc hpool hnd hacc s hs; exact hacc s hs
  | cons t ts ih =>
    intro pool acc hpool hnd hacc s hs
    unfold runTrials at hs
    dsimp only at hs
    have hpool1 : ∀ c ∈ shOut t pool, c ∈ cands1 := fun c hc =>
      hpool c ((hOut t pool).mem_iff.mp hc)
    have hnd1 : ((shOut t pool).map (·.name)).Nodup :=
      ((hOut t pool).map (·.name)).nodup_iff.mpr hnd
    rcases selectOneSolution_spec (buildGraphEntries cands1) (shA t) (shB t)
        total (shOut t pool) fieldC formatC (hA t) (hB t) with ⟨hsub, _⟩
    refine ih _ _ (fun c hc => hpool1 c (hsub c hc))
      (selectOneSolution_pool_nodup (buildGraphEntries cands1) (shA t) (shB t)
        total (shOut t pool) fieldC formatC hnd1) ?_ s hs
    intro s2 hs2
    by_cases hempty : (selectOneSolution (buildGraphEntries cands1) (shA t)
        (shB t) total (shOut t pool) fieldC formatC).1.isEmpty
    · rw [if_pos hempty] at hs2
      exact hacc s2 hs2
    · rw [if_neg hempty] at hs2
      rcases List.mem_append.mp hs2 with h | h
      · exact hacc s2 h
      · rcases selectOneSolution_stagewise cands1 hnn hpf (shA t) (shB t) total
            (shOut t pool) fieldC formatC (hA t) (hB t) hpool1 hnd1 with
          ⟨cs1, cs2, cs3, heq, hp1, hp2, hp3, hm1, hm2, hm3⟩
        rw [List.mem_singleton.mp h]
        exact ⟨cs1, cs2, cs3, heq, hp1, hp2, hp3,
          fun x hx => hpool1 x (hm1 x hx), fun x hx => hpool1 x (hm2 x hx),
          fun x hx => hpool1 x (hm3 x hx)⟩

theorem parseAll_names (raw : List RawCourse)
    (pp : List (Course × List DispEntry)) (hpp : parseAll raw = .ok pp) :
    pp.map (·.1.name) = raw.map (·.name) := by
  have h := parseAll_forall raw pp hpp
  clear hpp
  induction h with
  | nil => rfl
  | cons hab htail ih =>
    simp only [List.map_cons, ih]
    rw [(parseCandidate_shape _ _ hab).1]

theorem find_course_eq {l : List Course} (hnn : (l.map (·.name)).Nodup) :
    ∀ {x : Course}, x ∈ l → l.find? (fun y => y.name == x.name) = some x := by
  induction l with
  | nil => intro x h; cases h
  | cons a rest ih =>
    intro x h
    rcases List.mem_cons.mp h with rfl | hrest
    · exact List.find?_cons_of_pos _ (by simp)
    · have hane : (a.name == x.name) = false := by
        rw [List.map_cons, List.nodup_cons] at hnn
        have : x.name ∈ rest.map (·.name) := List.mem_map_of_mem _ hrest
        simp only [beq_eq_false_iff_ne, ne_eq]
        intro hcon
        exact hnn.1 (hcon ▸ this)
      rw [List.find?_cons_of_neg _ (by simp [hane])]
      have hnn2 : (rest.map (·.name)).Nodup := by
        rw [List.map_cons, List.nodup_cons] at hnn
        exact hnn.2
      exact ih hnn2 hrest

theorem overlapByName_eq {pool : List Course}
    (hnn : (pool.map (·.name)).Nodup) {x y : Course}
    (hx : x ∈ pool) (hy : y ∈ pool) :
    overlapByName pool x.name y.name = hasOverlap x.dates y.dates := by
  unfold overlapByName
  rw [find_course_eq hnn hx, find_course_eq hnn hy]

theorem selectAfterParse_conflicts (shOut : Nat → List Course → List Course)
    (shA shB : Nat → Nat → List Course → List Course) (totalCredits : Int)
    (fields formats : List String) (raw : List RawCourse)
    (pp : List (Course × List DispEntry))
    (user : List (Int × Int) × List DispEntry)
    (hOut : ∀ i l, (shOut i l).Perm l)
    (hA : ∀ t i l, (shA t i l).Perm l) (hB : ∀ t i l, (shB t i l).Perm l)
    (hnn : (raw.map (·.name)).Nodup) (hpfr : ∀ rc ∈ raw, plusFree rc.name)
    (hpp : parseAll raw = .ok pp) :
    ∀ sol ∈ selectAfterParse shOut shA shB totalCredits fields formats raw pp
      user,
      (∀ t ∈ sol, ∃ c ∈ pp.map (·.1), c.name = t.1 ∧
        hasOverlap c.dates user.1 = false) ∧
      (∃ ns1 ns2 ns3 : List String, sol.map (·.1) = ns1 ++ ns2 ++ ns3 ∧
        ns1.Pairwise (fun a b => overlapByName (pp.map (·.1)) a b = false) ∧
        ns2.Pairwise (fun a b => overlapByName (pp.map (·.1)) a b = false) ∧
        ns3.Pairwise (fun a b => overlapByName (pp.map (·.1)) a b = false)) := by
  have hpnames : ((pp.map (·.1)).map (·.name)).Nodup := by
    rw [List.map_map]
    have : ((fun c => c.name) ∘ (fun p => p.1)) = fun (p : Course × List DispEntry) => p.1.name := rfl
    rw [this, parseAll_names raw pp hpp]
    exact hnn
  have hppf : ∀ c ∈ pp.map (·.1), plusFree c.name := by
    intro c hc
    rcases List.mem_map.mp hc with ⟨p, hp, rfl⟩
    rcases forall₂_mem_right (parseAll_forall raw pp hpp) p hp with ⟨rc, hrc, hokp⟩
    rw [(parseCandidate_shape _ _ hokp).1]
    exact hpfr rc hrc
  intro sol hsol
  unfold selectAfterParse at hsol
  dsimp only at hsol
  generalize hc1e : (pp.map (·.1)).filter
    (fun c => ! hasOverlap c.dates user.1) = cands1 at hsol
  have hnd1 : (cands1.map (·.name)).Nodup := by
    rw [← hc1e]
    exact List.Nodup.sublist (List.Sublist.map _ (List.filter_sublist _)) hpnames
  have hmem1 : ∀ c ∈ cands1, c ∈ pp.map (·.1) := by
    intro c hc
    rw [← hc1e] at hc
    exact List.mem_of_mem_filter hc
  have hpf1 : ∀ c ∈ cands1, plusFree c.name := fun c hc => hppf c (hmem1 c hc)
  have huserfree : ∀ c ∈ cands1, hasOverlap c.dates user.1 = false := by
    intro c hc
    rw [← hc1e] at hc
    have := (List.mem_filter.mp hc).2
    simpa using this
  generalize hrte : (runTrials (buildGraphEntries cands1) shOut shA shB
    totalCredits (filterCourses cands1 (·.field) fields)
    (filterCourses cands1 (·.format) formats) [0, 1, 2] cands1 []).2 = sols
    at hsol
  by_cases hempty : sols.isEmpty
  · rw [if_pos hempty] at hsol
    cases hsol
  · rw [if_neg hempty] at hsol
    by_cases hone : sols.dedup.length = 1 ∧ sols.dedup.head? = some []
    · rw [if_pos hone] at hsol
      cases hsol
    · rw [if_neg hone] at hsol
      rcases List.mem_map.mp hsol with ⟨ns, hns, rfl⟩
      have hnsols : ns ∈ sols := List.mem_dedup.mp hns
      constructor
      · rcases runTrials_spec (buildGraphEntries cands1) shOut shA shB
            totalCredits (filterCourses cands1 (·.field) fields)
            (filterCourses cands1 (·.format) formats) cands1 hOut hA hB
            [0, 1, 2] cands1 [] (fun c hc => hc)
            (fun s hs => absurd hs (List.not_mem_nil s)) ns
            (by rw [hrte]; exact hnsols) with ⟨cs, hcm, hperm, _⟩
        intro t ht
        rcases List.mem_map.mp ht with ⟨n, hn, rfl⟩
        have hn2 : n ∈ cs.map (·.name) := hperm.mem_iff.mp hn
        rcases List.mem_map.mp hn2 with ⟨x, hx, rfl⟩
        exact ⟨x, hmem1 x (hcm x hx), rfl, huserfree x (hcm x hx)⟩
      · rcases runTrials_stagewise cands1 hnd1 hpf1 shOut shA shB totalCredits
            (filterCourses cands1 (·.field) fields)
            (filterCourses cands1 (·.format) formats) hOut hA hB [0, 1, 2]
            cands1 [] (fun c hc => hc) hnd1
            (fun s hs => absurd hs (List.not_mem_nil s)) ns
            (by rw [hrte]; exact hnsols) with
          ⟨cs1, cs2, cs3, hdec, hp1, hp2, hp3, hm1, hm2, hm3⟩
        refine ⟨cs1.map (·.name), cs2.map (·.name), (cs3.map (·.name)).reverse,
          ?_, ?_, ?_, ?_⟩
        · rw [List.map_map]
          have hid : ((fun (t : String × List DispEntry × Int) => t.1) ∘
              (fun n => (n, timeSlotsOf pp user.2 n, name2creditOf raw n))) =
              fun (n : String) => n := rfl
          rw [hid]
          simpa using hdec
        · refine List.pairwise_map.mpr (List.Pairwise.imp_of_mem ?_ hp1)
          intro a b ha hb hno
          rw [overlapByName_eq hpnames (hmem1 a (hm1 a ha)) (hmem1 b (hm1 b hb))]
          exact hno
        · refine List.pairwise_map.mpr (List.Pairwise.imp_of_mem ?_ hp2)
          intro a b ha hb hno
          rw [overlapByName_eq hpnames (hmem1 a (hm2 a ha)) (hmem1 b (hm2 b hb))]
          exact hno
        · rw [List.pairwise_reverse]
          refine List.pairwise_map.mpr (List.Pairwise.imp_of_mem ?_ hp3)
          intro a b ha hb hno
          rw [overlapByName_eq hpnames (hmem1 b (hm3 b hb)) (hmem1 a (hm3 a ha))]
          rw [hasOverlap_comm]
          exact hno

theorem runTrials_count (g : List (String × Bool))
    (shOut : Nat → List Course → List Course)
    (shA shB : Nat → Nat → List Course → List Course) (total : Int)
    (fieldC formatC : List String) :
    ∀ (ts : List Nat) (pool : List Course) (acc : List (List String)),
      ((runTrials g shOut shA shB total fieldC formatC ts pool acc).2.length ≤
        acc.length + ts.length) ∧
      ((∀ s ∈ acc, s ≠ []) →
        ∀ s ∈ (runTrials g shOut shA shB total fieldC formatC ts pool acc).2,
          s ≠ []) := by
  intro ts
  induction ts with
  | nil =>
    intro pool acc
    exact ⟨by simp [runTrials], fun h s hs => h s hs⟩
  | cons t ts ih =>
    intro pool acc
    unfold runTrials
    dsimp only
    by_cases hempty : (selectOneSolution g (shA t) (shB t) total (shOut t pool)
        fieldC formatC).1.isEmpty
    · rw [if_pos hempty]
      rcases ih (selectOneSolution g (shA t) (shB t) total (shOut t pool)
        fieldC formatC).2 acc with ⟨h1, h2⟩
      refine ⟨?_, h2⟩
      simp only [List.length_cons]
      omega
    · rw [if_neg hempty]
      rcases ih (selectOneSolution g (shA t) (shB t) total (shOut t pool)
        fieldC formatC).2 (acc ++ [(selectOneSolution g (shA t) (shB t) total
          (shOut t pool) fieldC formatC).1]) with ⟨h1, h2⟩
      constructor
      · simp only [List.length_append, List.length_singleton] at h1
        simp only [List.length_cons]
        omega
      · intro hacc
        refine h2 ?_
        intro s hs
        rcases List.mem_append.mp hs with h | h
        · exact hacc s h
        · rw [List.mem_singleton.mp h]
          intro hcon
          rw [hcon] at hempty
          exact hempty rfl

theorem selectAfterParse_shape (shOut : Nat → List Course → List Course)
    (shA shB : Nat → Nat → List Course → List Course) (totalCredits : Int)
    (fields formats : List String) (raw : List RawCourse)
    (pp : List (Course × List DispEntry))
    (user : List (Int × Int) × List DispEntry) :
    (selectAfterParse shOut shA shB totalCredits fields formats raw pp
      user).length ≤ 3 ∧
    (((selectAfterParse shOut shA shB totalCredits fields formats raw pp
      user).map (fun s => s.map (·.1))).Nodup) ∧
    (∀ s ∈ selectAfterParse shOut shA shB totalCredits fields formats raw pp
      user, s ≠ []) := by
  unfold selectAfterParse
  dsimp only
  generalize hc1e : (pp.map (·.1)).filter
    (fun c => ! hasOverlap c.dates user.1) = cands1
  rcases runTrials_count (buildGraphEntries cands1) shOut shA shB totalCredits
      (filterCourses cands1 (·.field) fields)
      (filterCourses cands1 (·.format) formats) [0, 1, 2] cands1 [] with
    ⟨hlen, hne⟩
  generalize hrte : (runTrials (buildGraphEntries cands1) shOut shA shB
    totalCredits (filterCourses cands1 (·.field) fields)
    (filterCourses cands1 (·.format) formats) [0, 1, 2] cands1 []).2 = sols
    at hlen hne
  by_cases hempty : sols.isEmpty
  · rw [if_pos hempty]
    exact ⟨by simp, by simp, by simp⟩
  · rw [if_neg hempty]
    by_cases hone : sols.dedup.length = 1 ∧ sols.dedup.head? = some []
    · rw [if_pos hone]
      exact ⟨by simp, by simp, by simp⟩
    · rw [if_neg hone]
      refine ⟨?_, ?_, ?_⟩
      · rw [List.length_map]
        have := List.Sublist.length_le (List.dedup_sublist sols)
        simp only [List.length_cons, List.length_nil] at hlen
        omega
      · have hpt : ∀ ns : List String, (ns.map (fun n =>
            (n, timeSlotsOf pp user.2 n, name2creditOf raw n))).map
              (fun (t : String × List DispEntry × Int) => t.1) = ns := by
          intro ns
          induction ns with
          | nil => rfl
          | cons a t iht => simp only [List.map_cons, iht]
        have hmm : ∀ l : List (List String), (l.map (fun ns => ns.map (fun n =>
            (n, timeSlotsOf pp user.2 n, name2creditOf raw n)))).map
              (fun s => s.map (fun (t : String × List DispEntry × Int) => t.1))
              = l := by
          intro l
          induction l with
          | nil => rfl
          | cons a t iht => simp only [List.map_cons, iht, hpt a]
        rw [hmm sols.dedup]
        exact List.nodup_dedup sols
      · intro s hs
        rcases List.mem_map.mp hs with ⟨ns, hns, rfl⟩
        have : ns ≠ [] := hne (fun s2 hs2 => absurd hs2 (List.not_mem_nil s2))
          ns (List.mem_dedup.mp hns)
        intro hcon
        rw [List.map_eq_nil] at hcon
        exact this hcon

/-! ## Claim theorems -/

/-- C6 (amended): on every candidate pool whose course names are distinct
and avoid the `'+'` key delimiter, the recorded conflict relation is
symmetric: the graph lookups for `(a, b)` and `(b, a)` agree for all
courses `a, b` of the pool. -/
theorem conflict_graph_symmetric_on_plus_free_names (cands : List Course)
    (hnn : (cands.map (·.name)).Nodup) (hpf : ∀ c ∈ cands, plusFree c.name)
    (a b : Course) (ha : a ∈ cands) (hb : b ∈ cands) :
    dictGet (buildGraphEntries cands) (a.name ++ "+" ++ b.name) =
      dictGet (buildGraphEntries cands) (b.name ++ "+" ++ a.name) := by
  by_cases hne : a.name = b.name
  · rw [hne]
  · rw [dictGet_buildGraph cands hnn hpf a b ha hb hne,
      dictGet_buildGraph cands hnn hpf b a hb ha (Ne.symm hne), hasOverlap_comm]

/-- C6 witness: symmetry holds on the concrete plus-free pool
`greedySkipPool`. -/
theorem conflict_graph_symmetric_on_plus_free_names_witness :
    ((greedySkipPool.map (·.name)).Nodup) ∧
    (∀ c ∈ greedySkipPool, plusFree c.name) ∧
    gCourseA ∈ greedySkipPool ∧ gCourseB ∈ greedySkipPool ∧
    dictGet (buildGraphEntries greedySkipPool)
        (gCourseA.name ++ "+" ++ gCourseB.name) =
      dictGet (buildGraphEntries greedySkipPool)
        (gCourseB.name ++ "+" ++ gCourseA.name) :=
  ⟨by decide, by decide, by decide, by decide,
    conflict_graph_symmetric_on_plus_free_names greedySkipPool (by decide)
      (by decide) gCourseA gCourseB (by decide) (by decide)⟩

/-- C5: if any candidate's `Dates` string contains an entry that lacks the
day/duration separator, has an unknown day token, or an unparsable clock
field, then `select_courses` raises (the `FormatError` of the spec) and the
error propagates to the caller: nothing is returned, in particular no
partial interval sequence built from the remaining well-formed entries. -/
theorem select_courses_raises_on_malformed_dates
    (shOut : Nat → List Course → List Course)
    (shA shB : Nat → Nat → List Course → List Course) (totalCredits : Int)
    (fields formats userSchedules : List String) (raw : List RawCourse)
    (rc : RawCourse) (hrc : rc ∈ raw) (e : String)
    (he : e ∈ splitStr ';' rc.dates) (hbad : malformedEntry e = true) :
    selectCourses shOut shA shB totalCredits fields formats userSchedules raw =
      .error () := by
  have hpc : parseCandidate rc = .error () := by
    unfold parseCandidate
    rw [changeTimeFormat_error_of_malformed rc.dates e he hbad]
    rfl
  have hpa : parseAll raw = .error () :=
    mapM_error_of_mem parseCandidate raw rc hrc hpc
  unfold selectCourses
  rw [hpa]
  rfl

/-- C5 witness: a `Dates` entry without the `'.'` separator makes the whole
call fail. -/
theorem select_courses_raises_on_malformed_dates_witness :
    ((⟨"CS1", 3, "", "", "mon 09:00-10:30"⟩ : RawCourse) ∈
      [(⟨"CS1", 3, "", "", "mon 09:00-10:30"⟩ : RawCourse)]) ∧
    ("mon 09:00-10:30" ∈ splitStr ';' "mon 09:00-10:30") ∧
    malformedEntry "mon 09:00-10:30" = true ∧
    selectCourses idShuffle idShuffle2 idShuffle2 6 [] [] []
      [⟨"CS1", 3, "", "", "mon 09:00-10:30"⟩] = .error () :=
  ⟨by decide, by decide, by decide,
    select_courses_raises_on_malformed_dates idShuffle idShuffle2 idShuffle2 6
      [] [] [] [⟨"CS1", 3, "", "", "mon 09:00-10:30"⟩]
      ⟨"CS1", 3, "", "", "mon 09:00-10:30"⟩ (by decide)
      "mon 09:00-10:30" (by decide) (by decide)⟩

/-- C10: every invocation of `_brute_force_meet_total_credits`, whatever
the current index, running credit sum and residual target, leaves
`self.stack` exactly as it found it: each invocation pops every index it
pushes before returning, on success and on failure alike. -/
theorem brute_force_restores_stack (g : List (String × Bool))
    (cands : List Course) (curCredits : Int) (curId : Nat)
    (totalCredits : Int) (stack : List Nat) (sol : List String) :
    (bruteForce g cands curCredits curId totalCredits stack sol).2.1 = stack :=
  bruteForceAux_stack g cands totalCredits (cands.drop curId) curCredits curId
    stack sol

/-- C3: the time parser does not put day offsets and clock times on one
minute axis: a well-formed tuesday entry is mapped to `86400`-second-based
offsets (`86940 = 1*24*3600 + 9*60`), not to the mandated
`day_index * 1440 + hh*60 + mm` minute value (`1980`). -/
theorem change_time_format_uses_second_offsets :
    changeTimeFormat "tue. 09:00-10:00" =
      .ok ([(86940, 87000)], [("tue", "09:00-10:00", 86940, 87000)]) ∧
    (86940 : Int) ≠ 1 * 1440 + (9 * 60 + 0) := by decide

/-- C4: in the greedy trial over `greedySkipPool`, only `gCourseA` is
accepted, yet the course at position 2 (`gCourseC`) is reported as
conflicting — it conflicts only with the skipped, never-accepted
`gCourseB` that appears earlier in the shuffled order, not with the
accepted `gCourseA`. -/
theorem greedy_skips_on_unaccepted_conflict :
    greedyLoop (buildGraphEntries greedySkipPool) greedySkipPool 2 =
      (1, [gCourseA]) ∧
    hasTimeConflictsForRandom (buildGraphEntries greedySkipPool)
      greedySkipPool 2 = true ∧
    hasOverlap gCourseC.dates gCourseA.dates = false ∧
    hasOverlap gCourseC.dates gCourseB.dates = true := by decide

/-- C2 counterexample: on `prefRaw` with field preference `"ai"` the
pipeline returns the solution `[CS1, CS2]` although the stage-2 pick `CS1`
and the stage-3 pick `CS2` occupy the same monday slot, so a returned
solution does contain a conflicting pair. -/
theorem select_courses_returns_conflicting_pair :
    selectCourses idShuffle idShuffle2 idShuffle2 6 ["ai"] [] [] prefRaw =
      .ok [[("CS1", [("mon", "09:00-10:30", 540, 630)], 3),
            ("CS2", [("mon", "09:00-10:30", 540, 630)], 3)]] ∧
    (parseAll prefRaw).map
        (fun pp => overlapByName (pp.map (·.1)) "CS1" "CS2") = .ok true := by
  decide

/-- C6 counterexample: on `plusPool` the recorded conflict relation is not
symmetric: the key built from the distinct pool names `"a"` and `"b+c"`
collides with the pair `("a+b", "c")`, so `conflict("a","b+c")` reads
`true` while `conflict("b+c","a")` reads `false` — even though the
intervals of `"a"` and `"b+c"` do not overlap at all. -/
theorem conflict_graph_asymmetric_on_plus_names :
    dictGet (buildGraphEntries plusPool) ("a" ++ "+" ++ "b+c") = some true ∧
    dictGet (buildGraphEntries plusPool) ("b+c" ++ "+" ++ "a") = some false ∧
    overlapByName plusPool "a" "b+c" = false := by decide

/-- C9 counterexample: on `twinRaw` with target 6, the first trial returns
the solution in order `[CS2, CS1]` and the second (reversed pool) trial in
order `[CS1, CS2]`; both survive deduplication, so two returned solutions
select the identical course-name set. -/
theorem select_courses_keeps_equal_name_sets :
    (selectCourses revSecond idShuffle2 idShuffle2 6 [] [] [] twinRaw).map
        (fun out => out.map (fun sol => sol.map (·.1))) =
      .ok [["CS2", "CS1"], ["CS1", "CS2"]] ∧
    (["CS2", "CS1"] : List String).Perm ["CS1", "CS2"] ∧
    (["CS2", "CS1"] : List String) ≠ ["CS1", "CS2"] := by
  refine ⟨by decide, ?_, by decide⟩
  decide

/-- C1: for every pool of uniquely named courses and positive target, and
every outcome of the random shuffles, every solution returned by
`select_courses` carries credits summing exactly to the target; no
partial-sum solution is ever surfaced. -/
theorem select_courses_solutions_sum_to_target (shOut : Nat → List Course → List Course)
    (shA shB : Nat → Nat → List Course → List Course) (totalCredits : Int)
    (fields formats userSchedules : List String) (raw : List RawCourse)
    (out : List (List (String × List DispEntry × Int)))
    (hOut : ∀ i l, (shOut i l).Perm l)
    (hA : ∀ t i l, (shA t i l).Perm l) (hB : ∀ t i l, (shB t i l).Perm l)
    (hnn : (raw.map (·.name)).Nodup)
    (hpos : ∀ rc ∈ raw, 0 < rc.credit) (hpt : 0 < totalCredits)
    (hok : selectCourses shOut shA shB totalCredits fields formats
      userSchedules raw = .ok out) :
    ∀ sol ∈ out, ((sol.map (fun t => t.2.2)).sum) = totalCredits := by
  unfold selectCourses at hok
  cases hpp : parseAll raw with
  | error u => cases u; rw [hpp] at hok; simp [Bind.bind, Except.bind] at hok
  | ok pp =>
    rw [hpp] at hok
    simp only [Bind.bind, Except.bind] at hok
    by_cases hus : userSchedules.isEmpty = true
    · rw [if_pos hus] at hok
      simp only [Pure.pure, Except.pure, Except.ok.injEq] at hok
      subst hok
      exact selectAfterParse_sum shOut shA shB totalCredits fields formats raw
        pp ([], []) hOut hA hB hnn hpp
    · rw [if_neg hus] at hok
      cases huser : changeTimeFormat (joinSemi userSchedules) with
      | error u => cases u; rw [huser] at hok; simp at hok
      | ok user =>
        rw [huser] at hok
        simp only [Pure.pure, Except.pure, Except.ok.injEq] at hok
        subst hok
        exact selectAfterParse_sum shOut shA shB totalCredits fields formats raw
          pp user hOut hA hB hnn hpp

/-- C8: on the scenario pool (credits 3, 3, 6) with target 5, no
preferences and no busy schedule, `select_courses` returns the empty list
for every outcome of the random shuffles: no sub-multiset of the credits
sums to 5, so every pass of the backtracking stage fails. -/
theorem scenario_two_returns_empty (shOut : Nat → List Course → List Course)
    (shA shB : Nat → Nat → List Course → List Course)
    (hOut : ∀ i l, (shOut i l).Perm l) :
    selectCourses shOut shA shB 5 [] [] [] scenarioRaw = .ok [] := by
  have hpp : parseAll scenarioRaw = .ok scenarioParsed := by decide
  unfold selectCourses
  rw [hpp]
  simp only [Bind.bind, Except.bind]
  show Except.ok (selectAfterParse shOut shA shB 5 [] [] scenarioRaw
    scenarioParsed ([], [])) = Except.ok []
  congr 1
  unfold selectAfterParse
  dsimp only
  have hc1 : (scenarioParsed.map (·.1)).filter
      (fun c => ! hasOverlap c.dates (([] : List (Int × Int)), ([] : List DispEntry)).1)
      = scenarioCourses := by decide
  rw [hc1]
  have hfc : filterCourses scenarioCourses (·.field) [] = [] := rfl
  have hfc2 : filterCourses scenarioCourses (·.format) [] = [] := rfl
  rw [hfc, hfc2]
  rw [runTrials_scenario (buildGraphEntries scenarioCourses) shOut shA shB hOut
    [0, 1, 2] scenarioCourses (List.Perm.refl _)]
  rfl

/-- C8 witness: the identity shuffle outcome also returns the empty
list. -/
theorem scenario_two_returns_empty_witness :
    (∀ i (l : List Course), (idShuffle i l).Perm l) ∧
    selectCourses idShuffle idShuffle2 idShuffle2 5 [] [] [] scenarioRaw =
      .ok [] :=
  ⟨fun _ l => List.Perm.refl l,
    scenario_two_returns_empty idShuffle idShuffle2 idShuffle2 (fun _ l => List.Perm.refl l)⟩

/-- C1 witness: the scenario-1 pool at target 6 returns one solution whose
credits sum to 6. -/
theorem select_courses_solutions_sum_to_target_witness :
    (scenarioRaw.map (·.name)).Nodup ∧ (∀ rc ∈ scenarioRaw, 0 < rc.credit) ∧
    ((0 : Int) < 6) ∧
    selectCourses idShuffle idShuffle2 idShuffle2 6 [] [] [] scenarioRaw =
      .ok ([[("CS102", [("wed", "09:00-10:30", 173340, 173430)], 3),
             ("CS101", [("mon", "09:00-10:30", 540, 630)], 3)]] :
        List (List (String × List DispEntry × Int))) ∧
    (∀ sol ∈ ([[("CS102", [("wed", "09:00-10:30", 173340, 173430)], 3),
                ("CS101", [("mon", "09:00-10:30", 540, 630)], 3)]] :
        List (List (String × List DispEntry × Int))),
      ((sol.map (fun t => t.2.2)).sum) = (6 : Int)) := by
  refine ⟨by decide, by decide, by decide, by decide, ?_⟩
  exact select_courses_solutions_sum_to_target idShuffle idShuffle2 idShuffle2 6 [] [] [] scenarioRaw
    ([[("CS102", [("wed", "09:00-10:30", 173340, 173430)], 3),
       ("CS101", [("mon", "09:00-10:30", 540, 630)], 3)]] :
      List (List (String × List DispEntry × Int)))
    (fun _ l => List.Perm.refl l) (fun _ _ l => List.Perm.refl l)
    (fun _ _ l => List.Perm.refl l) (by decide) (by decide) (by decide)
    (by decide)

/-- Claim C2 (amended): whenever select_courses succeeds, every course in a
returned solution avoids the user's busy schedule, and the solution splits into
three stage segments, each of which is pairwise free of time overlaps; overlaps
across different stages are not ruled out. -/
theorem select_courses_user_and_stagewise_conflict_freedom (shOut : Nat → List Course → List Course)
    (shA shB : Nat → Nat → List Course → List Course) (totalCredits : Int)
    (fields formats userSchedules : List String) (raw : List RawCourse)
    (pp : List (Course × List DispEntry))
    (user : List (Int × Int) × List DispEntry)
    (out : List (List (String × List DispEntry × Int)))
    (hOut : ∀ i l, (shOut i l).Perm l)
    (hA : ∀ t i l, (shA t i l).Perm l) (hB : ∀ t i l, (shB t i l).Perm l)
    (hnn : (raw.map (·.name)).Nodup) (hpfr : ∀ rc ∈ raw, plusFree rc.name)
    (hpp : parseAll raw = .ok pp)
    (huser : (if userSchedules.isEmpty then
        Except.ok (([] : List (Int × Int)), ([] : List DispEntry))
      else changeTimeFormat (joinSemi userSchedules)) = .ok user)
    (hok : selectCourses shOut shA shB totalCredits fields formats
      userSchedules raw = .ok out) :
    ∀ sol ∈ out,
      (∀ t ∈ sol, ∃ c ∈ pp.map (·.1), c.name = t.1 ∧
        hasOverlap c.dates user.1 = false) ∧
      (∃ ns1 ns2 ns3 : List String, sol.map (·.1) = ns1 ++ ns2 ++ ns3 ∧
        ns1.Pairwise (fun a b => overlapByName (pp.map (·.1)) a b = false) ∧
        ns2.Pairwise (fun a b => overlapByName (pp.map (·.1)) a b = false) ∧
        ns3.Pairwise (fun a b => overlapByName (pp.map (·.1)) a b = false)) := by
  unfold selectCourses at hok
  rw [hpp] at hok
  simp only [Bind.bind, Except.bind] at hok
  by_cases hus : userSchedules.isEmpty = true
  · rw [if_pos hus] at hok huser
    injection huser with huser2
    simp only [Pure.pure, Except.pure, Except.ok.injEq] at hok
    subst hok
    rw [← huser2]
    exact selectAfterParse_conflicts shOut shA shB totalCredits fields formats
      raw pp ([], []) hOut hA hB hnn hpfr hpp
  · rw [if_neg hus] at hok huser
    rw [huser] at hok
    simp only [Pure.pure, Except.pure, Except.ok.injEq] at hok
    subst hok
    exact selectAfterParse_conflicts shOut shA shB totalCredits fields formats
      raw pp user hOut hA hB hnn hpfr hpp

/-- Claim C9 (amended): a successful select_courses call returns at most three
solutions, no two returned solutions are the same ordered course sequence, and
no returned solution is empty; equal name sets in different orders may both be
returned. -/
theorem select_courses_output_shape (shOut : Nat → List Course → List Course)
    (shA shB : Nat → Nat → List Course → List Course) (totalCredits : Int)
    (fields formats userSchedules : List String) (raw : List RawCourse)
    (out : List (List (String × List DispEntry × Int)))
    (hok : selectCourses shOut shA shB totalCredits fields formats
      userSchedules raw = .ok out) :
    out.length ≤ 3 ∧ ((out.map (fun s => s.map (·.1))).Nodup) ∧
    ∀ s ∈ out, s ≠ [] := by
  unfold selectCourses at hok
  cases hpp : parseAll raw with
  | error u => cases u; rw [hpp] at hok; simp [Bind.bind, Except.bind] at hok
  | ok pp =>
    rw [hpp] at hok
    simp only [Bind.bind, Except.bind] at hok
    by_cases hus : userSchedules.isEmpty = true
    · rw [if_pos hus] at hok
      simp only [Pure.pure, Except.pure, Except.ok.injEq] at hok
      subst hok
      exact selectAfterParse_shape shOut shA shB totalCredits fields formats
        raw pp ([], [])
    · rw [if_neg hus] at hok
      cases huser : changeTimeFormat (joinSemi userSchedules) with
      | error u => cases u; rw [huser] at hok; simp at hok
      | ok user =>
        rw [huser] at hok
        simp only [Pure.pure, Except.pure, Except.ok.injEq] at hok
        subst hok
        exact selectAfterParse_shape shOut shA shB totalCredits fields formats
          raw pp user

theorem select_courses_user_and_stagewise_conflict_freedom_witness :
    ((prefRaw.map (·.name)).Nodup) ∧ (∀ rc ∈ prefRaw, plusFree rc.name) ∧
    parseAll prefRaw = .ok
      [(⟨"CS1", 3, "AI", "lecture", [(540, 630)]⟩,
          [("mon", "09:00-10:30", 540, 630)]),
       (⟨"CS2", 3, "SE", "lecture", [(540, 630)]⟩,
          [("mon", "09:00-10:30", 540, 630)])] ∧
    (∀ sol ∈ ([[("CS1", [("mon", "09:00-10:30", 540, 630)], 3),
                ("CS2", [("mon", "09:00-10:30", 540, 630)], 3)]] :
        List (List (String × List DispEntry × Int))),
      (∀ t ∈ sol, ∃ c ∈ (([(⟨"CS1", 3, "AI", "lecture", [(540, 630)]⟩,
            [("mon", "09:00-10:30", 540, 630)]),
          (⟨"CS2", 3, "SE", "lecture", [(540, 630)]⟩,
            [("mon", "09:00-10:30", 540, 630)])] :
          List (Course × List DispEntry)).map (·.1)), c.name = t.1 ∧
        hasOverlap c.dates ([] : List (Int × Int)) = false) ∧
      (∃ ns1 ns2 ns3 : List String, sol.map (·.1) = ns1 ++ ns2 ++ ns3 ∧
        ns1.Pairwise (fun a b => overlapByName
          (([(⟨"CS1", 3, "AI", "lecture", [(540, 630)]⟩,
              [("mon", "09:00-10:30", 540, 630)]),
            (⟨"CS2", 3, "SE", "lecture", [(540, 630)]⟩,
              [("mon", "09:00-10:30", 540, 630)])] :
            List (Course × List DispEntry)).map (·.1)) a b = false) ∧
        ns2.Pairwise (fun a b => overlapByName
          (([(⟨"CS1", 3, "AI", "lecture", [(540, 630)]⟩,
              [("mon", "09:00-10:30", 540, 630)]),
            (⟨"CS2", 3, "SE", "lecture", [(540, 630)]⟩,
              [("mon", "09:00-10:30", 540, 630)])] :
            List (Course × List DispEntry)).map (·.1)) a b = false) ∧
        ns3.Pairwise (fun a b => overlapByName
          (([(⟨"CS1", 3, "AI", "lecture", [(540, 630)]⟩,
              [("mon", "09:00-10:30", 540, 630)]),
            (⟨"CS2", 3, "SE", "lecture", [(540, 630)]⟩,
              [("mon", "09:00-10:30", 540, 630)])] :
            List (Course × List DispEntry)).map (·.1)) a b = false))) := by
  refine ⟨by decide, by decide, by decide, ?_⟩
  exact select_courses_user_and_stagewise_conflict_freedom idShuffle idShuffle2 idShuffle2 6 ["ai"] [] [] prefRaw
    [(⟨"CS1", 3, "AI", "lecture", [(540, 630)]⟩,
        [("mon", "09:00-10:30", 540, 630)]),
     (⟨"CS2", 3, "SE", "lecture", [(540, 630)]⟩,
        [("mon", "09:00-10:30", 540, 630)])]
    (([] : List (Int × Int)), ([] : List DispEntry))
    ([[("CS1", [("mon", "09:00-10:30", 540, 630)], 3),
       ("CS2", [("mon", "09:00-10:30", 540, 630)], 3)]] :
      List (List (String × List DispEntry × Int)))
    (fun _ l => List.Perm.refl l) (fun _ _ l => List.Perm.refl l)
    (fun _ _ l => List.Perm.refl l) (by decide) (by decide) (by decide)
    (by decide) (by decide)

theorem select_courses_output_shape_witness :
    selectCourses revSecond idShuffle2 idShuffle2 6 [] [] [] twinRaw =
      .ok ([[("CS2", [("wed", "09:00-10:30", 173340, 173430)], 3),
             ("CS1", [("mon", "09:00-10:30", 540, 630)], 3)],
            [("CS1", [("mon", "09:00-10:30", 540, 630)], 3),
             ("CS2", [("wed", "09:00-10:30", 173340, 173430)], 3)]] :
        List (List (String × List DispEntry × Int))) ∧
    (([[("CS2", [("wed", "09:00-10:30", 173340, 173430)], 3),
        ("CS1", [("mon", "09:00-10:30", 540, 630)], 3)],
       [("CS1", [("mon", "09:00-10:30", 540, 630)], 3),
        ("CS2", [("wed", "09:00-10:30", 173340, 173430)], 3)]] :
      List (List (String × List DispEntry × Int))).length ≤ 3 ∧
     (([[("CS2", [("wed", "09:00-10:30", 173340, 173430)], 3),
         ("CS1", [("mon", "09:00-10:30", 540, 630)], 3)],
        [("CS1", [("mon", "09:00-10:30", 540, 630)], 3),
         ("CS2", [("wed", "09:00-10:30", 173340, 173430)], 3)]] :
       List (List (String × List DispEntry × Int))).map
         (fun s => s.map (·.1))).Nodup ∧
     (∀ s ∈ ([[("CS2", [("wed", "09:00-10:30", 173340, 173430)], 3),
         ("CS1", [("mon", "09:00-10:30", 540, 630)], 3)],
        [("CS1", [("mon", "09:00-10:30", 540, 630)], 3),
         ("CS2", [("wed", "09:00-10:30", 173340, 173430)], 3)]] :
       List (List (String × List DispEntry × Int))), s ≠ [])) := by
  refine ⟨by decide, ?_⟩
  exact select_courses_output_shape revSecond idShuffle2 idShuffle2 6 [] [] [] twinRaw
    ([[("CS2", [("wed", "09:00-10:30", 173340, 173430)], 3),
       ("CS1", [("mon", "09:00-10:30", 540, 630)], 3)],
      [("CS1", [("mon", "09:00-10:30", 540, 630)], 3),
       ("CS2", [("wed", "09:00-10:30", 173340, 173430)], 3)]] :
      List (List (String × List DispEntry × Int))) (by decide)

end CoursePicker
